import Mathlib

/-!
Verification of the highlight-processor pipeline (shallow embedding).

The embedding models the coordinator `process_one_video.py`, the publish
orchestrator `upload_one_video.py`, the batch scheduler
`process_all_videos.py`, and the platform clients `instagram_upload.py`
and `tiktok_upload.py`.

Modelling conventions, shared by all definitions below:
* A filesystem is the finite set of existing paths, as a `List String`.
  `os.path.exists p` is membership; `os.replace`, `os.remove` and
  `shutil.move` are the corresponding set operations.
* Items are plain file names inside one workspace folder, given pre-split
  as `(base, ext)` with `input_path = base ++ ext` (abstracting
  `os.path.splitext`); `os.path.basename` of such a name is the name
  itself and the processed subdirectory entry for a name `p` is
  `"processed/" ++ p`.
* Wall-clock timestamps (`started_at`, `completed_at`) are abstracted
  away; that a duration was recorded is kept as a Boolean flag.
* The black-box step functions (crop / scrub / normalize) and the
  platform upload functions are oracles: a parameter states, for each
  call, whether it returns normally or raises, and with what message.
-/

namespace HP

/-- The filesystem as the list of paths that exist. -/
abbrev FS := List String

/-- `os.path.exists`. -/
def FS.hasPath (fs : FS) (p : String) : Bool := fs.contains p

/-- Creating a file at `p` (writing it): afterwards it exists. -/
def FS.add (fs : FS) (p : String) : FS := if fs.contains p then fs else p :: fs

/-- `os.remove p` (also models the guarded `if exists: remove`, since
removing an absent path is the identity here). -/
def FS.del (fs : FS) (p : String) : FS := fs.filter (fun q => !(q == p))

/-- `os.replace src dst`: `src` disappears, `dst` exists. -/
def FS.replace (fs : FS) (src dst : String) : FS := (fs.del src).add dst

theorem contains_eq_decide (fs : List String) (p : String) :
    fs.contains p = decide (p ∈ fs) := by
  simp [List.contains]

@[simp] theorem FS.hasPath_add (fs : FS) (p q : String) :
    (fs.add p).hasPath q = (fs.hasPath q || p == q) := by
  by_cases hpq : p = q
  · subst hpq
    by_cases h : p ∈ fs <;>
      simp [FS.add, FS.hasPath, contains_eq_decide, h]
  · by_cases h : p ∈ fs <;> by_cases hq : q ∈ fs <;>
      simp [FS.add, FS.hasPath, contains_eq_decide, h, hq, hpq, Ne.symm hpq]

@[simp] theorem FS.hasPath_del (fs : FS) (p q : String) :
    (fs.del p).hasPath q = (fs.hasPath q && !(q == p)) := by
  by_cases hpq : q = p
  · subst hpq
    simp [FS.del, FS.hasPath, contains_eq_decide, List.mem_filter]
  · by_cases hq : q ∈ fs <;>
      simp [FS.del, FS.hasPath, contains_eq_decide, List.mem_filter, hq, hpq]

theorem FS.hasPath_replace (fs : FS) (src dst q : String) :
    (fs.replace src dst).hasPath q =
      ((fs.hasPath q && !(q == src)) || dst == q) := by
  simp [FS.replace]

/-- One step record inside the sidecar JSON (`steps` map entry). -/
structure StepRec where
  status : String
  error : Option String := none
  durationRecorded : Bool := false
  output : Option String := none
deriving Repr, DecidableEq

/-- The sidecar status document `<source>.status.json`: top-level `status`
and `source` keys (absent on a fresh document) and the `steps` map,
as an association list with unique keys. -/
structure Sidecar where
  status : Option String := none
  source : Option String := none
  steps : List (String × StepRec) := []
deriving Repr, DecidableEq

def Sidecar.getStep (sc : Sidecar) (name : String) : Option StepRec :=
  (sc.steps.find? (fun e => e.1 == name)).map (fun e => e.2)

def Sidecar.setStep (sc : Sidecar) (name : String) (r : StepRec) : Sidecar :=
  { sc with steps := (sc.steps.filter (fun e => !(e.1 == name))) ++ [(name, r)] }

def Sidecar.setStatus (sc : Sidecar) (s : String) : Sidecar :=
  { sc with status := some s }

theorem find_setSteps_ne (l : List (String × StepRec)) (n m : String)
    (r : StepRec) (h : m ≠ n) :
    ((l.filter (fun e => !(e.1 == n))) ++ [(n, r)]).find? (fun e => e.1 == m) =
      l.find? (fun e => e.1 == m) := by
  induction l with
  | nil =>
    simp [List.find?_cons, Ne.symm h]
  | cons a l ih =>
    obtain ⟨k, v⟩ := a
    by_cases ham : k = m
    · subst ham
      have han : k ≠ n := h
      simp [List.filter_cons, List.find?_cons, han]
    · by_cases han : k = n
      · simpa [List.filter_cons, List.find?_cons, ham, han, Ne.symm h] using ih
      · simpa [List.filter_cons, List.find?_cons, ham, han, Ne.symm h] using ih

theorem Sidecar.getStep_setStep_same (sc : Sidecar) (n : String) (r : StepRec) :
    (sc.setStep n r).getStep n = some r := by
  simp only [Sidecar.setStep, Sidecar.getStep, List.find?_append]
  have h : (sc.steps.filter (fun e => !(e.1 == n))).find?
      (fun e => e.1 == n) = none := by
    rw [List.find?_eq_none]
    intro e he
    have := List.of_mem_filter he
    simpa using this
  rw [h]
  simp [List.find?]

theorem Sidecar.getStep_setStep_ne (sc : Sidecar) (n m : String) (r : StepRec)
    (h : m ≠ n) : (sc.setStep n r).getStep m = sc.getStep m := by
  simp only [Sidecar.setStep, Sidecar.getStep]
  rw [find_setSteps_ne sc.steps n m r h]

@[simp] theorem Sidecar.getStep_setStatus (sc : Sidecar) (s n : String) :
    (sc.setStatus s).getStep n = sc.getStep n := rfl

@[simp] theorem Sidecar.status_setStep (sc : Sidecar) (n : String) (r : StepRec) :
    (sc.setStep n r).status = sc.status := rfl

@[simp] theorem Sidecar.status_setStatus (sc : Sidecar) (s : String) :
    (sc.setStatus s).status = some s := rfl

/-! Checkpoint and in-flight path naming from `process_one_video.py`
(lines 97 to 111): the item is `base ++ ext` and each artifact is the base
with a marker suffix before the extension. -/

def input_path (base ext : String) : String := base ++ ext

def output_path (base ext : String) : String := base ++ "_final" ++ ext

def cropped_path (base ext : String) : String := base ++ "_cropped" ++ ext

def novocals_path (base ext : String) : String := base ++ "_novocals" ++ ext

def cropping_tmp (base ext : String) : String := base ++ "_cropping" ++ ext

def scrubbing_tmp (base ext : String) : String := base ++ "_scrubbing" ++ ext

def normalizing_tmp (base ext : String) : String := base ++ "_normalizing" ++ ext

def sidecar_path (base ext : String) : String := base ++ ext ++ ".status.json"

/-- The archival destination inside the fixed processed subdirectory. -/
def processed_of (p : String) : String := "processed/" ++ p

/-! Path distinctness facts. All artifact names of one item are pairwise
distinct, for every base and extension, except that the sidecar name can in
principle collide with a marker-suffixed name when the extension itself
starts with an underscore; theorems that need the sidecar path therefore
assume the extension does not start with an underscore (true of any real
extension such as .mp4). -/

theorem ne_of_len {p q : String} (h : p.length ≠ q.length) : p ≠ q :=
  fun hc => h (congrArg String.length hc)

theorem mid_ne {s1 s2 : String} (h : s1.data ≠ s2.data) (base ext : String) :
    base ++ s1 ++ ext ≠ base ++ s2 ++ ext := by
  intro hc
  apply h
  have hd := congrArg String.data hc
  simp only [String.data_append] at hd
  exact List.append_cancel_right (List.append_cancel_left
    (by simpa only [List.append_assoc] using hd))

theorem input_ne_mid (base ext : String) {s : String} (h : 0 < s.length) :
    base ++ ext ≠ base ++ s ++ ext := by
  apply ne_of_len
  simp only [String.length_append]
  omega

theorem sidecar_ne_mid (base ext : String) {s : String}
    (hext : ext.data.head? ≠ some '_')
    (hhead : s.data.head? = some '_')
    (hne : s.data ≠ ".status.json".data) :
    base ++ ext ++ ".status.json" ≠ base ++ s ++ ext := by
  intro hc
  have hd := congrArg String.data hc
  simp only [String.data_append] at hd
  have h2 : ext.data ++ ".status.json".data = s.data ++ ext.data :=
    List.append_cancel_left (by simpa only [List.append_assoc] using hd)
  cases hE : ext.data with
  | nil =>
    rw [hE] at h2
    simp only [List.nil_append, List.append_nil] at h2
    exact hne h2.symm
  | cons c rest =>
    rw [hE] at h2
    obtain ⟨s0, stail, hs0⟩ : ∃ a t, s.data = a :: t := by
      cases hsd : s.data with
      | nil => rw [hsd] at hhead; simp at hhead
      | cons a t => exact ⟨a, t, rfl⟩
    rw [hs0] at h2
    rw [hs0] at hhead
    simp only [List.head?_cons, Option.some.injEq] at hhead
    simp only [List.cons_append] at h2
    have hc0 : c = s0 := by
      have := congrArg List.head? h2
      simpa using this
    apply hext
    rw [hE, List.head?_cons, hc0, hhead]

/-- Result of invoking one black-box step function (crop, scrub, normalize):
it either returns normally, having written its output to the tmp path, or it
raises, either a SystemExit with a code or another exception with a message.
In the raising case the tmp file may or may not have been created. -/
inductive StepFnResult where
  | ok
  | sysExit (code : Nat) (tmpWritten : Bool)
  | exc (msg : String) (tmpWritten : Bool)
deriving Repr, DecidableEq

/-- The error text recorded by `_run_step`: the f-string for SystemExit,
`str(exc)` otherwise (line 67 of process_one_video.py). -/
def StepFnResult.errorMsg : StepFnResult → Option String
  | .ok => none
  | .sysExit c _ => some ("exited with code " ++ toString c)
  | .exc m _ => some m

def StepFnResult.tmpLeft : StepFnResult → Bool
  | .ok => true
  | .sysExit _ t => t
  | .exc _ t => t

/-- State threaded through the coordinator: the filesystem and the current
content of the sidecar document (every mutation is immediately persisted by
`_write_sidecar`, so the in-memory copy and the file agree). -/
structure RunState where
  fs : FS
  sidecar : Sidecar
deriving Repr

/-- The sidecar record `_run_step` writes on failure (lines 69 to 75):
failed status, the error text, and the duration. -/
def failedRec (r : StepFnResult) : StepRec :=
  { status := "failed", error := r.errorMsg, durationRecorded := true }

/-- `_run_step` (process_one_video.py lines 52 to 87): record
`in_progress`, invoke the step function writing to `tmp_path`, promote
`tmp_path` to `stable_path` on success, and on failure record `failed` with
the error and duration, delete the tmp file if present, and re-raise.
Returns the new state and the raised error, if any. -/
def run_step (st : RunState) (stepName : String) (stepResult : StepFnResult)
    (tmpPath stablePath : String) : RunState × Option StepFnResult :=
  let sc0 := st.sidecar.setStep stepName { status := "in_progress" }
  match stepResult with
  | .ok =>
      let fs1 := (st.fs.add tmpPath).replace tmpPath stablePath
      let sc1 := sc0.setStep stepName
        { status := "done", durationRecorded := true, output := some stablePath }
      (⟨fs1, sc1⟩, none)
  | r =>
      let sc1 := sc0.setStep stepName (failedRec r)
      let fs1 := (if r.tmpLeft then st.fs.add tmpPath else st.fs).del tmpPath
      (⟨fs1, sc1⟩, some r)

/-- Step 3 of the pipeline (normalize), skipped when the final output
exists (line 142). `ex` accumulates the names of executed steps. -/
def pipeline_step3 (base ext : String) (st : RunState) (ex : List String)
    (normR : StepFnResult) : RunState × List String × Option StepFnResult :=
  if st.fs.hasPath (output_path base ext) then (st, ex, none)
  else
    let r := run_step st "normalize" normR (normalizing_tmp base ext)
      (output_path base ext)
    (r.1, ex ++ ["normalize"], r.2)

/-- Step 2 (scrub voices), skipped when the final output or the novocals
checkpoint exists (line 132); on success continues with step 3, a raised
error aborts the remaining steps. -/
def pipeline_step2 (base ext : String) (st : RunState) (ex : List String)
    (scrubR normR : StepFnResult) : RunState × List String × Option StepFnResult :=
  if st.fs.hasPath (output_path base ext) ||
      st.fs.hasPath (novocals_path base ext) then
    pipeline_step3 base ext st ex normR
  else
    match run_step st "scrub_voices" scrubR (scrubbing_tmp base ext)
      (novocals_path base ext) with
    | (st1, none) => pipeline_step3 base ext st1 (ex ++ ["scrub_voices"]) normR
    | (st1, some e) => (st1, ex ++ ["scrub_voices"], some e)

/-- Steps 1 to 3 of `process_video` (lines 120 to 149): crop is skipped
when the final output or any later checkpoint exists (line 122). -/
def run_pipeline (base ext : String) (st : RunState)
    (cropR scrubR normR : StepFnResult) :
    RunState × List String × Option StepFnResult :=
  if st.fs.hasPath (output_path base ext) ||
      st.fs.hasPath (novocals_path base ext) ||
      st.fs.hasPath (cropped_path base ext) then
    pipeline_step2 base ext st [] scrubR normR
  else
    match run_step st "crop" cropR (cropping_tmp base ext)
      (cropped_path base ext) with
    | (st1, none) => pipeline_step2 base ext st1 ["crop"] scrubR normR
    | (st1, some e) => (st1, ["crop"], some e)

/-- Result of invoking one black-box platform upload function: normal
return, SystemExit (the clients call sys.exit on failure), or another
exception with a message. -/
inductive UploadFnResult where
  | ok
  | sysExit
  | exc (msg : String)
deriving Repr, DecidableEq

/-- The module-level platform list of upload_one_video.py (names only; the
upload functions themselves are the oracle parameter). -/
def PLATFORMS : List String := ["Instagram Reels", "YouTube Shorts", "TikTok"]

/-- `_platform_key` (upload_one_video.py line 59):
`"upload_" + name.lower().replace(" ", "_")`. Since the replaced pattern
is the single space character, lowercasing and replacing are carried out
together characterwise. -/
def platform_key (name : String) : String :=
  "upload_" ++ String.mk (name.data.map
    (fun c => if c = ' ' then '_' else c.toLower))

/-- Whether the sidecar already marks a platform as done (line 102). -/
def stepDone (sc : Option Sidecar) (name : String) : Bool :=
  match sc with
  | some sc =>
      match sc.getStep (platform_key name) with
      | some r => r.status == "done"
      | none => false
  | none => false

/-- Aggregate state of the publish orchestrator: the results map (as an
association list in completion order), the sidecar content, and the list of
platforms whose upload function was actually invoked. -/
structure UploadState where
  results : List (String × Bool × Option String)
  sidecar : Option Sidecar
  invoked : List String
deriving Repr

/-- `_upload` (upload_one_video.py lines 107 to 160): record
`in_progress`, invoke the upload function, then record `done`, or `failed`
with the generic SystemExit text or the exception text. -/
def upload_worker (st : UploadState) (name : String) (r : UploadFnResult) :
    UploadState :=
  let key := platform_key name
  let sc1 := st.sidecar.map (fun sc => sc.setStep key { status := "in_progress" })
  let inv := st.invoked ++ [name]
  match r with
  | .ok =>
      { results := st.results ++ [(name, true, none)],
        sidecar := sc1.map (fun sc => sc.setStep key
          { status := "done", durationRecorded := true }),
        invoked := inv }
  | .sysExit =>
      { results := st.results ++ [(name, false, some "upload exited with error")],
        sidecar := sc1.map (fun sc => sc.setStep key
          { status := "failed", error := some "upload exited with error",
            durationRecorded := true }),
        invoked := inv }
  | .exc m =>
      { results := st.results ++ [(name, false, some m)],
        sidecar := sc1.map (fun sc => sc.setStep key
          { status := "failed", error := some m, durationRecorded := true }),
        invoked := inv }

/-- The launch loop body (lines 163 to 186): platforms already done are
skipped, platforms in skip_platforms are skipped silently, Instagram Reels
is gated on the ngrok precheck and recorded failed without invoking its
upload function when the tunnel is down (note: this failed record carries
no duration field), and otherwise the worker runs. -/
def upload_launch (ngrokUp : Bool) (skipDone skipPlatforms : List String)
    (fn : String → UploadFnResult) (st : UploadState) (name : String) :
    UploadState :=
  if skipDone.contains name then st
  else if skipPlatforms.contains name then st
  else if name == "Instagram Reels" && !ngrokUp then
    { results := st.results ++ [(name, false, some "ngrok not reachable")],
      sidecar := st.sidecar.map (fun sc => sc.setStep (platform_key name)
        { status := "failed", error := some "ngrok not reachable" }),
      invoked := st.invoked }
  else upload_worker st name (fn name)

/-- `upload_one_video` (upload_one_video.py lines 64 to 203). The three
platform workers run in threads, but each writes only its own results entry
and its own sidecar step key, both under locks, so the final results map
and sidecar are those of the sequentialised launch order; the claims
settled here are about that final state. `fn` gives each platform upload
function invocation outcome and `ngrokUp` the `_is_ngrok_up()` probe. -/
def upload_one_video (sc0 : Option Sidecar) (skipPlatforms : List String)
    (ngrokUp : Bool) (fn : String → UploadFnResult) : UploadState :=
  PLATFORMS.foldl (upload_launch ngrokUp
      (PLATFORMS.filter (fun n => stepDone sc0 n)) skipPlatforms fn)
    { results := (PLATFORMS.filter (fun n => stepDone sc0 n)).map
        (fun n => (n, true, none)),
      sidecar := sc0, invoked := [] }

/-- Final outcome of `process_video`: the returned output path, or the
process exiting with a code (sys.exit or a re-raised SystemExit). -/
inductive PVOutcome where
  | returned (path : String)
  | exited (code : Nat)
deriving Repr, DecidableEq

/-- Observable final state of one `process_video` run. `executed` lists the
processing steps that ran, `invoked` the platform upload functions that
were called, `moved` the archival moves performed (src, dest). -/
structure PVState where
  fs : FS
  sidecar : Sidecar
  executed : List String
  invoked : List String
  results : List (String × Bool × Option String)
  moved : List (String × String)
  deletedIntermediates : List String
  outcome : PVOutcome
deriving Repr

/-- `shutil.move` into processed/, guarded by `os.path.exists` (lines 192
to 195), also logging the move. -/
def move_if_present (acc : FS × List (String × String)) (src : String) :
    FS × List (String × String) :=
  if acc.1.hasPath src then
    ((acc.1.del src).add (processed_of src), acc.2 ++ [(src, processed_of src)])
  else acc

/-- Lines 113 to 118: load or initialise the sidecar, record the source
name and in_progress status. -/
def init_sidecar (base ext : String) (sc0 : Option Sidecar) : Sidecar :=
  ({ sc0.getD {} with source := some (input_path base ext) } : Sidecar).setStatus
    "in_progress"

/-- `process_video` (process_one_video.py lines 90 to 202) with the default
output path. Reads or initialises the sidecar (`sc0` is its content when
the file exists), records in_progress, runs the three steps with resume
skips, and on a step failure marks the sidecar failed and exits (re-raising
the code for SystemExit, exiting 1 otherwise). On processing success it
returns early without upload when `upload` is false; otherwise it fans out
to the platforms, exits 1 with a failed sidecar when any result failed, and
on full success marks done, moves source, final artifact and sidecar into
processed/ and deletes the intermediate checkpoints. -/
def process_video (base ext : String) (fs0 : FS) (sc0 : Option Sidecar)
    (cropR scrubR normR : StepFnResult) (upload : Bool)
    (skipPlatforms : List String) (ngrokUp : Bool)
    (fn : String → UploadFnResult) : PVState :=
  let input := input_path base ext
  let output := output_path base ext
  let scPath := sidecar_path base ext
  let sc1 := init_sidecar base ext sc0
  let fs1 := fs0.add scPath
  match run_pipeline base ext ⟨fs1, sc1⟩ cropR scrubR normR with
  | (st, ex, some err) =>
      let sc2 := st.sidecar.setStatus "failed"
      match err with
      | .sysExit c _ =>
          { fs := st.fs, sidecar := sc2, executed := ex, invoked := [],
            results := [], moved := [], deletedIntermediates := [],
            outcome := .exited c }
      | _ =>
          { fs := st.fs, sidecar := sc2, executed := ex, invoked := [],
            results := [], moved := [], deletedIntermediates := [],
            outcome := .exited 1 }
  | (st, ex, none) =>
      if !upload then
        { fs := st.fs, sidecar := st.sidecar, executed := ex, invoked := [],
          results := [], moved := [], deletedIntermediates := [],
          outcome := .returned output }
      else
        let u := upload_one_video (some st.sidecar) skipPlatforms ngrokUp fn
        let sc2 := u.sidecar.getD st.sidecar
        if u.results.any (fun e => !e.2.1) then
          { fs := st.fs, sidecar := sc2.setStatus "failed", executed := ex,
            invoked := u.invoked, results := u.results, moved := [],
            deletedIntermediates := [], outcome := .exited 1 }
        else
          let m1 := move_if_present (st.fs, []) input
          let m2 := move_if_present m1 output
          let m3 := move_if_present m2 scPath
          let d1 : List String := if m3.1.hasPath (cropped_path base ext)
            then [cropped_path base ext] else []
          let fs5 := m3.1.del (cropped_path base ext)
          let d2 : List String := if fs5.hasPath (novocals_path base ext)
            then [novocals_path base ext] else []
          let fsF := fs5.del (novocals_path base ext)
          { fs := fsF, sidecar := sc2.setStatus "done", executed := ex,
            invoked := u.invoked, results := u.results, moved := m3.2,
            deletedIntermediates := d1 ++ d2, outcome := .returned output }

/-! Distinctness instances used below. -/

theorem sidecar_ne_mid_len (base ext : String) {s : String} (h : s.length ≠ 12) :
    sidecar_path base ext ≠ base ++ s ++ ext := by
  apply ne_of_len
  simp only [sidecar_path, String.length_append]
  have h12 : (".status.json" : String).length = 12 := by decide
  omega

theorem sidecar_ne_output (base ext : String) :
    sidecar_path base ext ≠ output_path base ext :=
  sidecar_ne_mid_len base ext (by decide)

theorem sidecar_ne_novocals (base ext : String) :
    sidecar_path base ext ≠ novocals_path base ext :=
  sidecar_ne_mid_len base ext (by decide)

theorem sidecar_ne_cropped (base ext : String) :
    sidecar_path base ext ≠ cropped_path base ext :=
  sidecar_ne_mid_len base ext (by decide)

/-- The executed-steps trace of a run is the trace of the processing
pipeline phase; the upload and archival phases never touch it. -/
theorem process_video_executed (base ext : String) (fs0 : FS)
    (sc0 : Option Sidecar) (cropR scrubR normR : StepFnResult) (upl : Bool)
    (skipP : List String) (ngrokUp : Bool) (fn : String → UploadFnResult) :
    (process_video base ext fs0 sc0 cropR scrubR normR upl skipP ngrokUp
      fn).executed =
    (run_pipeline base ext ⟨fs0.add (sidecar_path base ext),
      init_sidecar base ext sc0⟩ cropR scrubR normR).2.1 := by
  unfold process_video
  rcases hrp : run_pipeline base ext ⟨fs0.add (sidecar_path base ext),
    init_sidecar base ext sc0⟩ cropR scrubR normR with ⟨st, ex, err⟩
  simp only [hrp]
  cases err with
  | none =>
    dsimp only
    split
    · rfl
    · split <;> rfl
  | some e => cases e <;> rfl

theorem pipeline_step3_executed_mem (base ext : String) (st : RunState)
    (ex : List String) (normR : StepFnResult) :
    ∀ x ∈ (pipeline_step3 base ext st ex normR).2.1,
      x ∈ ex ∨ x = "normalize" := by
  unfold pipeline_step3
  split
  · intro x hx; exact Or.inl hx
  · intro x hx
    rcases List.mem_append.mp hx with h | h
    · exact Or.inl h
    · right; simpa using h

theorem pipeline_step2_executed_mem (base ext : String) (st : RunState)
    (ex : List String) (scrubR normR : StepFnResult) :
    ∀ x ∈ (pipeline_step2 base ext st ex scrubR normR).2.1,
      x ∈ ex ∨ x = "scrub_voices" ∨ x = "normalize" := by
  unfold pipeline_step2
  split
  · intro x hx
    rcases pipeline_step3_executed_mem base ext st ex normR x hx with h | h
    · exact Or.inl h
    · exact Or.inr (Or.inr h)
  · split
    · intro x hx
      rcases pipeline_step3_executed_mem base ext _ (ex ++ ["scrub_voices"])
        normR x hx with h | h
      · rcases List.mem_append.mp h with h1 | h1
        · exact Or.inl h1
        · exact Or.inr (Or.inl (by simpa using h1))
      · exact Or.inr (Or.inr h)
    · intro x hx
      rcases List.mem_append.mp hx with h1 | h1
      · exact Or.inl h1
      · exact Or.inr (Or.inl (by simpa using h1))

theorem run_pipeline_no_crop (base ext : String) (st : RunState)
    (cropR scrubR normR : StepFnResult)
    (h : (st.fs.hasPath (output_path base ext) ||
      st.fs.hasPath (novocals_path base ext) ||
      st.fs.hasPath (cropped_path base ext)) = true) :
    "crop" ∉ (run_pipeline base ext st cropR scrubR normR).2.1 := by
  unfold run_pipeline
  simp only [h, if_true]
  intro hx
  rcases pipeline_step2_executed_mem base ext st [] scrubR normR _ hx with
    h1 | h1 | h1
  · simp at h1
  · simp at h1
  · simp at h1

theorem run_pipeline_no_scrub (base ext : String) (st : RunState)
    (cropR scrubR normR : StepFnResult)
    (h : (st.fs.hasPath (output_path base ext) ||
      st.fs.hasPath (novocals_path base ext)) = true) :
    "scrub_voices" ∉ (run_pipeline base ext st cropR scrubR normR).2.1 := by
  have h1 : (st.fs.hasPath (output_path base ext) ||
      st.fs.hasPath (novocals_path base ext) ||
      st.fs.hasPath (cropped_path base ext)) = true := by
    rcases Bool.or_eq_true_iff.mp h with h2 | h2 <;> simp [h2]
  unfold run_pipeline
  simp only [h1, if_true]
  unfold pipeline_step2
  simp only [h, if_true]
  intro hx
  rcases pipeline_step3_executed_mem base ext st [] normR _ hx with h2 | h2
  · simp at h2
  · simp at h2

theorem run_pipeline_skip_all (base ext : String) (st : RunState)
    (cropR scrubR normR : StepFnResult)
    (h : st.fs.hasPath (output_path base ext) = true) :
    run_pipeline base ext st cropR scrubR normR = (st, [], none) := by
  unfold run_pipeline pipeline_step2 pipeline_step3
  simp [h]

theorem run_pipeline_only_norm (base ext : String) (st : RunState)
    (cropR scrubR normR : StepFnResult)
    (hn : st.fs.hasPath (novocals_path base ext) = true)
    (ho : st.fs.hasPath (output_path base ext) = false) :
    (run_pipeline base ext st cropR scrubR normR).2.1 = ["normalize"] := by
  unfold run_pipeline pipeline_step2 pipeline_step3
  simp [hn, ho]

/-- C1: for every item, a step whose stable checkpoint artifact already
exists, or for which any later step's stable artifact exists, is not
re-executed by process_video; and when the cropped and novocals artifacts
exist but the final output does not, a run executes only the normalize
step. -/
theorem C1_resume_skips_completed_steps (base ext : String) (fs0 : FS)
    (sc0 : Option Sidecar) (cropR scrubR normR : StepFnResult) (upl : Bool)
    (skipP : List String) (ngrokUp : Bool) (fn : String → UploadFnResult) :
    ((fs0.hasPath (cropped_path base ext) ||
        fs0.hasPath (novocals_path base ext) ||
        fs0.hasPath (output_path base ext)) = true →
      "crop" ∉ (process_video base ext fs0 sc0 cropR scrubR normR upl skipP
        ngrokUp fn).executed) ∧
    ((fs0.hasPath (novocals_path base ext) ||
        fs0.hasPath (output_path base ext)) = true →
      "scrub_voices" ∉ (process_video base ext fs0 sc0 cropR scrubR normR upl
        skipP ngrokUp fn).executed) ∧
    (fs0.hasPath (output_path base ext) = true →
      "normalize" ∉ (process_video base ext fs0 sc0 cropR scrubR normR upl
        skipP ngrokUp fn).executed) ∧
    (fs0.hasPath (cropped_path base ext) = true →
      fs0.hasPath (novocals_path base ext) = true →
      fs0.hasPath (output_path base ext) = false →
      (process_video base ext fs0 sc0 cropR scrubR normR upl skipP ngrokUp
        fn).executed = ["normalize"]) := by
  simp only [process_video_executed]
  refine ⟨?_, ?_, ?_, ?_⟩
  · intro h
    apply run_pipeline_no_crop
    simp only [FS.hasPath_add]
    rcases Bool.or_eq_true_iff.mp h with h1 | h1
    · rcases Bool.or_eq_true_iff.mp h1 with h2 | h2 <;> simp [h2]
    · simp [h1]
  · intro h
    apply run_pipeline_no_scrub
    simp only [FS.hasPath_add]
    rcases Bool.or_eq_true_iff.mp h with h1 | h1 <;> simp [h1]
  · intro h
    have hs : ((fs0.add (sidecar_path base ext)).hasPath
        (output_path base ext)) = true := by
      simp [h]
    rw [run_pipeline_skip_all base ext _ cropR scrubR normR hs]
    simp
  · intro hc hn ho
    apply run_pipeline_only_norm
    · simp [hn]
    · simp only [FS.hasPath_add, ho,
        beq_false_of_ne (sidecar_ne_output base ext), Bool.or_self]

/-- Witness for C1 on a concrete resume run: with cropped and novocals
checkpoints present and no final output, only normalize executes; with the
final output present, normalize is skipped too. -/
theorem C1_resume_skips_completed_steps_witness :
    ("crop" ∉ (process_video "clip" ".mp4"
        ["clip.mp4", "clip_cropped.mp4", "clip_novocals.mp4"] none .ok .ok .ok
        false [] true (fun _ => .ok)).executed) ∧
    ("scrub_voices" ∉ (process_video "clip" ".mp4"
        ["clip.mp4", "clip_cropped.mp4", "clip_novocals.mp4"] none .ok .ok .ok
        false [] true (fun _ => .ok)).executed) ∧
    ("normalize" ∉ (process_video "clip" ".mp4" ["clip_final.mp4"] none .ok
        .ok .ok false [] true (fun _ => .ok)).executed) ∧
    ((process_video "clip" ".mp4"
        ["clip.mp4", "clip_cropped.mp4", "clip_novocals.mp4"] none .ok .ok .ok
        false [] true (fun _ => .ok)).executed = ["normalize"]) :=
  ⟨(C1_resume_skips_completed_steps "clip" ".mp4"
      ["clip.mp4", "clip_cropped.mp4", "clip_novocals.mp4"] none .ok .ok .ok
      false [] true (fun _ => .ok)).1 (by decide),
   (C1_resume_skips_completed_steps "clip" ".mp4"
      ["clip.mp4", "clip_cropped.mp4", "clip_novocals.mp4"] none .ok .ok .ok
      false [] true (fun _ => .ok)).2.1 (by decide),
   (C1_resume_skips_completed_steps "clip" ".mp4" ["clip_final.mp4"] none .ok
      .ok .ok false [] true (fun _ => .ok)).2.2.1 (by decide),
   (C1_resume_skips_completed_steps "clip" ".mp4"
      ["clip.mp4", "clip_cropped.mp4", "clip_novocals.mp4"] none .ok .ok .ok
      false [] true (fun _ => .ok)).2.2.2 (by decide) (by decide) (by decide)⟩

/-- The raised-error component of `_run_step` depends only on the step
function result, never on the filesystem. -/
theorem run_step_err (st : RunState) (n : String) (r : StepFnResult)
    (tmp stable : String) :
    (run_step st n r tmp stable).2 = match r with
      | .ok => none
      | r => some r := by
  cases r <;> rfl

theorem run_step_fs_ok (st : RunState) (n : String) (tmp stable : String) :
    (run_step st n .ok tmp stable).1.fs = (st.fs.add tmp).replace tmp stable :=
  rfl

/-- The executed trace of step 3 depends on the filesystem only through
the final-output existence bit. -/
theorem pipeline_step3_executed_bits (base ext : String) (st st' : RunState)
    (ex : List String) (normR : StepFnResult)
    (ho : st.fs.hasPath (output_path base ext) =
      st'.fs.hasPath (output_path base ext)) :
    (pipeline_step3 base ext st ex normR).2.1 =
      (pipeline_step3 base ext st' ex normR).2.1 := by
  unfold pipeline_step3
  by_cases h : st.fs.hasPath (output_path base ext) = true
  · rw [if_pos h, if_pos (ho ▸ h)]
  · rw [if_neg h, if_neg (ho ▸ h)]

/-- The executed trace of steps 2 and 3 depends on the filesystem only
through the output and novocals existence bits. -/
theorem pipeline_step2_executed_bits (base ext : String) (st st' : RunState)
    (ex : List String) (scrubR normR : StepFnResult)
    (ho : st.fs.hasPath (output_path base ext) =
      st'.fs.hasPath (output_path base ext))
    (hn : st.fs.hasPath (novocals_path base ext) =
      st'.fs.hasPath (novocals_path base ext)) :
    (pipeline_step2 base ext st ex scrubR normR).2.1 =
      (pipeline_step2 base ext st' ex scrubR normR).2.1 := by
  unfold pipeline_step2
  by_cases h : (st.fs.hasPath (output_path base ext) ||
      st.fs.hasPath (novocals_path base ext)) = true
  · rw [if_pos h, if_pos (ho ▸ hn ▸ h)]
    exact pipeline_step3_executed_bits base ext st st' ex normR ho
  · rw [if_neg h, if_neg (ho ▸ hn ▸ h)]
    cases hr : scrubR with
    | ok =>
      have e1 := run_step_err st "scrub_voices" .ok (scrubbing_tmp base ext)
        (novocals_path base ext)
      have e2 := run_step_err st' "scrub_voices" .ok (scrubbing_tmp base ext)
        (novocals_path base ext)
      rcases h1 : run_step st "scrub_voices" .ok (scrubbing_tmp base ext)
        (novocals_path base ext) with ⟨st1, e⟩
      rcases h2 : run_step st' "scrub_voices" .ok (scrubbing_tmp base ext)
        (novocals_path base ext) with ⟨st1', e'⟩
      rw [h1] at e1
      rw [h2] at e2
      simp only at e1 e2
      subst e1
      subst e2
      simp only
      apply pipeline_step3_executed_bits
      have hf1 : st1.fs = (st.fs.add (scrubbing_tmp base ext)).replace
          (scrubbing_tmp base ext) (novocals_path base ext) := by
        rw [← run_step_fs_ok st "scrub_voices" (scrubbing_tmp base ext)
          (novocals_path base ext), h1]
      have hf2 : st1'.fs = (st'.fs.add (scrubbing_tmp base ext)).replace
          (scrubbing_tmp base ext) (novocals_path base ext) := by
        rw [← run_step_fs_ok st' "scrub_voices" (scrubbing_tmp base ext)
          (novocals_path base ext), h2]
      rw [hf1, hf2]
      simp only [FS.replace, FS.hasPath_add, FS.hasPath_del, ho]
    | sysExit c t =>
      have e1 := run_step_err st "scrub_voices" (.sysExit c t)
        (scrubbing_tmp base ext) (novocals_path base ext)
      have e2 := run_step_err st' "scrub_voices" (.sysExit c t)
        (scrubbing_tmp base ext) (novocals_path base ext)
      rcases h1 : run_step st "scrub_voices" (.sysExit c t)
        (scrubbing_tmp base ext) (novocals_path base ext) with ⟨st1, e⟩
      rcases h2 : run_step st' "scrub_voices" (.sysExit c t)
        (scrubbing_tmp base ext) (novocals_path base ext) with ⟨st1', e'⟩
      rw [h1] at e1
      rw [h2] at e2
      simp only at e1 e2
      subst e1
      subst e2
      simp only
    | exc m t =>
      have e1 := run_step_err st "scrub_voices" (.exc m t)
        (scrubbing_tmp base ext) (novocals_path base ext)
      have e2 := run_step_err st' "scrub_voices" (.exc m t)
        (scrubbing_tmp base ext) (novocals_path base ext)
      rcases h1 : run_step st "scrub_voices" (.exc m t)
        (scrubbing_tmp base ext) (novocals_path base ext) with ⟨st1, e⟩
      rcases h2 : run_step st' "scrub_voices" (.exc m t)
        (scrubbing_tmp base ext) (novocals_path base ext) with ⟨st1', e'⟩
      rw [h1] at e1
      rw [h2] at e2
      simp only at e1 e2
      subst e1
      subst e2
      simp only

/-- The executed trace of the whole pipeline phase depends on the
filesystem only through the three stable-artifact existence bits. -/
theorem run_pipeline_executed_bits (base ext : String) (st st' : RunState)
    (cropR scrubR normR : StepFnResult)
    (ho : st.fs.hasPath (output_path base ext) =
      st'.fs.hasPath (output_path base ext))
    (hn : st.fs.hasPath (novocals_path base ext) =
      st'.fs.hasPath (novocals_path base ext))
    (hc : st.fs.hasPath (cropped_path base ext) =
      st'.fs.hasPath (cropped_path base ext)) :
    (run_pipeline base ext st cropR scrubR normR).2.1 =
      (run_pipeline base ext st' cropR scrubR normR).2.1 := by
  unfold run_pipeline
  by_cases h : (st.fs.hasPath (output_path base ext) ||
      st.fs.hasPath (novocals_path base ext) ||
      st.fs.hasPath (cropped_path base ext)) = true
  · rw [if_pos h, if_pos (ho ▸ hn ▸ hc ▸ h)]
    exact pipeline_step2_executed_bits base ext st st' [] scrubR normR ho hn
  · rw [if_neg h, if_neg (ho ▸ hn ▸ hc ▸ h)]
    cases hr : cropR with
    | ok =>
      have e1 := run_step_err st "crop" .ok (cropping_tmp base ext)
        (cropped_path base ext)
      have e2 := run_step_err st' "crop" .ok (cropping_tmp base ext)
        (cropped_path base ext)
      rcases h1 : run_step st "crop" .ok (cropping_tmp base ext)
        (cropped_path base ext) with ⟨st1, e⟩
      rcases h2 : run_step st' "crop" .ok (cropping_tmp base ext)
        (cropped_path base ext) with ⟨st1', e'⟩
      rw [h1] at e1
      rw [h2] at e2
      simp only at e1 e2
      subst e1
      subst e2
      simp only
      apply pipeline_step2_executed_bits
      · have hf1 : st1.fs = (st.fs.add (cropping_tmp base ext)).replace
            (cropping_tmp base ext) (cropped_path base ext) := by
          rw [← run_step_fs_ok st "crop" (cropping_tmp base ext)
            (cropped_path base ext), h1]
        have hf2 : st1'.fs = (st'.fs.add (cropping_tmp base ext)).replace
            (cropping_tmp base ext) (cropped_path base ext) := by
          rw [← run_step_fs_ok st' "crop" (cropping_tmp base ext)
            (cropped_path base ext), h2]
        rw [hf1, hf2]
        simp only [FS.replace, FS.hasPath_add, FS.hasPath_del, ho]
      · have hf1 : st1.fs = (st.fs.add (cropping_tmp base ext)).replace
            (cropping_tmp base ext) (cropped_path base ext) := by
          rw [← run_step_fs_ok st "crop" (cropping_tmp base ext)
            (cropped_path base ext), h1]
        have hf2 : st1'.fs = (st'.fs.add (cropping_tmp base ext)).replace
            (cropping_tmp base ext) (cropped_path base ext) := by
          rw [← run_step_fs_ok st' "crop" (cropping_tmp base ext)
            (cropped_path base ext), h2]
        rw [hf1, hf2]
        simp only [FS.replace, FS.hasPath_add, FS.hasPath_del, hn]
    | sysExit c t =>
      have e1 := run_step_err st "crop" (.sysExit c t) (cropping_tmp base ext)
        (cropped_path base ext)
      have e2 := run_step_err st' "crop" (.sysExit c t) (cropping_tmp base ext)
        (cropped_path base ext)
      rcases h1 : run_step st "crop" (.sysExit c t) (cropping_tmp base ext)
        (cropped_path base ext) with ⟨st1, e⟩
      rcases h2 : run_step st' "crop" (.sysExit c t) (cropping_tmp base ext)
        (cropped_path base ext) with ⟨st1', e'⟩
      rw [h1] at e1
      rw [h2] at e2
      simp only at e1 e2
      subst e1
      subst e2
      simp only
    | exc m t =>
      have e1 := run_step_err st "crop" (.exc m t) (cropping_tmp base ext)
        (cropped_path base ext)
      have e2 := run_step_err st' "crop" (.exc m t) (cropping_tmp base ext)
        (cropped_path base ext)
      rcases h1 : run_step st "crop" (.exc m t) (cropping_tmp base ext)
        (cropped_path base ext) with ⟨st1, e⟩
      rcases h2 : run_step st' "crop" (.exc m t) (cropping_tmp base ext)
        (cropped_path base ext) with ⟨st1', e'⟩
      rw [h1] at e1
      rw [h2] at e2
      simp only at e1 e2
      subst e1
      subst e2
      simp only

/-- All pairwise disequalities between in-flight paths and stable paths. -/
theorem inflight_ne_stable (base ext : String) :
    cropping_tmp base ext ≠ output_path base ext ∧
    cropping_tmp base ext ≠ novocals_path base ext ∧
    cropping_tmp base ext ≠ cropped_path base ext ∧
    scrubbing_tmp base ext ≠ output_path base ext ∧
    scrubbing_tmp base ext ≠ novocals_path base ext ∧
    scrubbing_tmp base ext ≠ cropped_path base ext ∧
    normalizing_tmp base ext ≠ output_path base ext ∧
    normalizing_tmp base ext ≠ novocals_path base ext ∧
    normalizing_tmp base ext ≠ cropped_path base ext :=
  ⟨mid_ne (by decide) base ext, mid_ne (by decide) base ext,
   mid_ne (by decide) base ext, mid_ne (by decide) base ext,
   mid_ne (by decide) base ext, mid_ne (by decide) base ext,
   mid_ne (by decide) base ext, mid_ne (by decide) base ext,
   mid_ne (by decide) base ext⟩

/-- C2 counterexample: the claim says leftover in-flight artifacts are
purged (deleted) at the start of every coordinator run. In this run the
leftover in-flight file clip_cropping.mp4 is present initially, every step
is skipped, nothing fails, and the in-flight file is still present in the
final filesystem: no purge ever happened. -/
theorem C2_counterexample :
    (process_video "clip" ".mp4"
        ["clip.mp4", "clip_cropping.mp4", "clip_final.mp4"] none .ok .ok .ok
        false [] true (fun _ => .ok)).executed = [] ∧
    (process_video "clip" ".mp4"
        ["clip.mp4", "clip_cropping.mp4", "clip_final.mp4"] none .ok .ok .ok
        false [] true (fun _ => .ok)).fs.hasPath
      (cropping_tmp "clip" ".mp4") = true := by
  constructor <;> rfl

/-- C2 amended: in-flight artifacts are not purged at the start of a run
(they are deleted only when their own step fails during the run), but
resume/skip decisions never consult them: the executed step trace is the
same whether all leftover in-flight artifacts are present or absent in the
initial filesystem. -/
theorem C2_inflight_never_consulted (base ext : String) (fs0 : FS)
    (sc0 : Option Sidecar) (cropR scrubR normR : StepFnResult) (upl : Bool)
    (skipP : List String) (ngrokUp : Bool) (fn : String → UploadFnResult) :
    (process_video base ext
        (((fs0.add (cropping_tmp base ext)).add
          (scrubbing_tmp base ext)).add (normalizing_tmp base ext))
        sc0 cropR scrubR normR upl skipP ngrokUp fn).executed =
    (process_video base ext
        (((fs0.del (cropping_tmp base ext)).del
          (scrubbing_tmp base ext)).del (normalizing_tmp base ext))
        sc0 cropR scrubR normR upl skipP ngrokUp fn).executed := by
  obtain ⟨h1, h2, h3, h4, h5, h6, h7, h8, h9⟩ := inflight_ne_stable base ext
  simp only [process_video_executed]
  apply run_pipeline_executed_bits
  · simp [beq_false_of_ne h1, beq_false_of_ne h4, beq_false_of_ne h7,
      beq_false_of_ne (Ne.symm h1), beq_false_of_ne (Ne.symm h4),
      beq_false_of_ne (Ne.symm h7)]
  · simp [beq_false_of_ne h2, beq_false_of_ne h5, beq_false_of_ne h8,
      beq_false_of_ne (Ne.symm h2), beq_false_of_ne (Ne.symm h5),
      beq_false_of_ne (Ne.symm h8)]
  · simp [beq_false_of_ne h3, beq_false_of_ne h6, beq_false_of_ne h9,
      beq_false_of_ne (Ne.symm h3), beq_false_of_ne (Ne.symm h6),
      beq_false_of_ne (Ne.symm h9)]

/-- The full result of `_run_step` on a raising step function. -/
theorem run_step_fail (st : RunState) (n : String) (r : StepFnResult)
    (tmp stable : String) (hr : r ≠ .ok) :
    run_step st n r tmp stable =
      (⟨(if r.tmpLeft then st.fs.add tmp else st.fs).del tmp,
        (st.sidecar.setStep n { status := "in_progress" }).setStep n
          (failedRec r)⟩, some r) := by
  cases r with
  | ok => exact absurd rfl hr
  | sysExit c t => rfl
  | exc m t => rfl

/-- When the pipeline phase raises, `process_video` records the failed
item status and exits without uploading or archiving. -/
theorem process_video_fail_char (base ext : String) (fs0 : FS)
    (sc0 : Option Sidecar) (cropR scrubR normR : StepFnResult) (upl : Bool)
    (skipP : List String) (ngrokUp : Bool) (fn : String → UploadFnResult)
    (st1 : RunState) (ex : List String) (err : StepFnResult)
    (hrp : run_pipeline base ext ⟨fs0.add (sidecar_path base ext),
      init_sidecar base ext sc0⟩ cropR scrubR normR = (st1, ex, some err)) :
    process_video base ext fs0 sc0 cropR scrubR normR upl skipP ngrokUp fn =
      { fs := st1.fs, sidecar := st1.sidecar.setStatus "failed",
        executed := ex, invoked := [], results := [], moved := [],
        deletedIntermediates := [],
        outcome := .exited (match err with | .sysExit c _ => c | _ => 1) } := by
  unfold process_video
  simp only [hrp]
  cases err <;> rfl

/-- Pipeline phase when the crop step runs and raises. -/
theorem run_pipeline_crop_fail (base ext : String) (st : RunState)
    (cropR scrubR normR : StepFnResult)
    (ho : st.fs.hasPath (output_path base ext) = false)
    (hn : st.fs.hasPath (novocals_path base ext) = false)
    (hc : st.fs.hasPath (cropped_path base ext) = false)
    (hr : cropR ≠ .ok) :
    run_pipeline base ext st cropR scrubR normR =
      ((run_step st "crop" cropR (cropping_tmp base ext)
        (cropped_path base ext)).1, ["crop"], some cropR) := by
  unfold run_pipeline
  rw [if_neg (by simp [ho, hn, hc])]
  rw [run_step_fail st "crop" cropR _ _ hr]

/-- Pairwise disequalities among the stable artifact paths. -/
theorem cropped_ne_output (base ext : String) :
    cropped_path base ext ≠ output_path base ext :=
  mid_ne (by decide) base ext

theorem cropped_ne_novocals (base ext : String) :
    cropped_path base ext ≠ novocals_path base ext :=
  mid_ne (by decide) base ext

theorem novocals_ne_output (base ext : String) :
    novocals_path base ext ≠ output_path base ext :=
  mid_ne (by decide) base ext

/-- Steps 2 and 3 when scrub runs and raises. -/
theorem pipeline_step2_scrub_fail (base ext : String) (st : RunState)
    (ex : List String) (scrubR normR : StepFnResult)
    (ho : st.fs.hasPath (output_path base ext) = false)
    (hn : st.fs.hasPath (novocals_path base ext) = false)
    (hr : scrubR ≠ .ok) :
    pipeline_step2 base ext st ex scrubR normR =
      ((run_step st "scrub_voices" scrubR (scrubbing_tmp base ext)
        (novocals_path base ext)).1, ex ++ ["scrub_voices"], some scrubR) := by
  unfold pipeline_step2
  rw [if_neg (by simp [ho, hn])]
  rw [run_step_fail st "scrub_voices" scrubR _ _ hr]

/-- Pipeline phase when crop is skipped or succeeds and scrub raises. -/
theorem run_pipeline_scrub_fail (base ext : String) (st : RunState)
    (cropR scrubR normR : StepFnResult)
    (ho : st.fs.hasPath (output_path base ext) = false)
    (hn : st.fs.hasPath (novocals_path base ext) = false)
    (hreach : st.fs.hasPath (cropped_path base ext) = true ∨ cropR = .ok)
    (hr : scrubR ≠ .ok) :
    ∃ stm : RunState,
      run_pipeline base ext st cropR scrubR normR =
        ((run_step stm "scrub_voices" scrubR (scrubbing_tmp base ext)
          (novocals_path base ext)).1,
         (if st.fs.hasPath (cropped_path base ext) then [] else ["crop"]) ++
           ["scrub_voices"], some scrubR) ∧
      stm.fs.hasPath (novocals_path base ext) = false ∧
      stm.fs.hasPath (output_path base ext) = false := by
  obtain ⟨h1, h2, -, -, -, -, -, -, -⟩ := inflight_ne_stable base ext
  by_cases hc : st.fs.hasPath (cropped_path base ext) = true
  · refine ⟨st, ?_, hn, ho⟩
    unfold run_pipeline
    rw [if_pos (by simp [hc])]
    unfold pipeline_step2
    rw [if_neg (by simp [ho, hn])]
    rw [run_step_fail st "scrub_voices" scrubR _ _ hr]
    simp [hc]
  · have hc2 : st.fs.hasPath (cropped_path base ext) = false := by
      simpa using hc
    have hcr : cropR = .ok := by
      rcases hreach with h | h
      · exact absurd h hc
      · exact h
    subst hcr
    rcases hq : run_step st "crop" .ok (cropping_tmp base ext)
      (cropped_path base ext) with ⟨st1, e⟩
    have he := run_step_err st "crop" .ok (cropping_tmp base ext)
      (cropped_path base ext)
    rw [hq] at he
    simp only at he
    subst he
    have hfs : st1.fs = (st.fs.add (cropping_tmp base ext)).replace
        (cropping_tmp base ext) (cropped_path base ext) := by
      rw [← run_step_fs_ok st "crop" (cropping_tmp base ext)
        (cropped_path base ext), hq]
    have hb1 : st1.fs.hasPath (output_path base ext) = false := by
      rw [hfs]
      simp only [FS.replace, FS.hasPath_add, FS.hasPath_del, ho]
      simp [beq_false_of_ne (cropped_ne_output base ext),
        beq_false_of_ne (Ne.symm h1), h1]
    have hb2 : st1.fs.hasPath (novocals_path base ext) = false := by
      rw [hfs]
      simp only [FS.replace, FS.hasPath_add, FS.hasPath_del, hn]
      simp [beq_false_of_ne (cropped_ne_novocals base ext),
        beq_false_of_ne (Ne.symm h2), h2]
    refine ⟨st1, ?_, hb2, hb1⟩
    unfold run_pipeline
    rw [if_neg (by simp [ho, hn, hc2])]
    rw [hq]
    show pipeline_step2 base ext st1 ["crop"] scrubR normR = _
    rw [pipeline_step2_scrub_fail base ext st1 ["crop"] scrubR normR hb1 hb2 hr]
    simp [hc2]

/-- Step 3 when normalize runs and raises. -/
theorem pipeline_step3_norm_fail (base ext : String) (st : RunState)
    (ex : List String) (normR : StepFnResult)
    (ho : st.fs.hasPath (output_path base ext) = false)
    (hr : normR ≠ .ok) :
    pipeline_step3 base ext st ex normR =
      ((run_step st "normalize" normR (normalizing_tmp base ext)
        (output_path base ext)).1, ex ++ ["normalize"], some normR) := by
  unfold pipeline_step3
  rw [if_neg (by simp [ho])]
  rw [run_step_fail st "normalize" normR _ _ hr]

/-- Steps 2 and 3 when scrub succeeds and normalize raises. -/
theorem pipeline_step2_norm_fail (base ext : String) (st : RunState)
    (ex : List String) (normR : StepFnResult)
    (ho : st.fs.hasPath (output_path base ext) = false)
    (hn : st.fs.hasPath (novocals_path base ext) = false)
    (hr : normR ≠ .ok) :
    ∃ stm : RunState,
      pipeline_step2 base ext st ex .ok normR =
        ((run_step stm "normalize" normR (normalizing_tmp base ext)
          (output_path base ext)).1,
         (ex ++ ["scrub_voices"]) ++ ["normalize"], some normR) ∧
      stm.fs.hasPath (output_path base ext) = false := by
  obtain ⟨-, -, -, h4, -, -, -, -, -⟩ := inflight_ne_stable base ext
  rcases hq : run_step st "scrub_voices" .ok (scrubbing_tmp base ext)
    (novocals_path base ext) with ⟨st1, e⟩
  have he := run_step_err st "scrub_voices" .ok (scrubbing_tmp base ext)
    (novocals_path base ext)
  rw [hq] at he
  simp only at he
  subst he
  have hfs : st1.fs = (st.fs.add (scrubbing_tmp base ext)).replace
      (scrubbing_tmp base ext) (novocals_path base ext) := by
    rw [← run_step_fs_ok st "scrub_voices" (scrubbing_tmp base ext)
      (novocals_path base ext), hq]
  have hb1 : st1.fs.hasPath (output_path base ext) = false := by
    rw [hfs]
    simp only [FS.replace, FS.hasPath_add, FS.hasPath_del, ho]
    simp [beq_false_of_ne (novocals_ne_output base ext),
      beq_false_of_ne (Ne.symm h4), h4]
  refine ⟨st1, ?_, hb1⟩
  unfold pipeline_step2
  rw [if_neg (by simp [ho, hn])]
  rw [hq]
  show pipeline_step3 base ext st1 (ex ++ ["scrub_voices"]) normR = _
  rw [pipeline_step3_norm_fail base ext st1 (ex ++ ["scrub_voices"]) normR hb1 hr]

/-- Pipeline phase when earlier steps are skipped or succeed and the
normalize step runs and raises. -/
theorem run_pipeline_norm_fail (base ext : String) (st : RunState)
    (cropR scrubR normR : StepFnResult)
    (ho : st.fs.hasPath (output_path base ext) = false)
    (hreach : st.fs.hasPath (novocals_path base ext) = true ∨
      (scrubR = .ok ∧ (st.fs.hasPath (cropped_path base ext) = true ∨
        cropR = .ok)))
    (hr : normR ≠ .ok) :
    ∃ stm : RunState, ∃ ex0 : List String,
      run_pipeline base ext st cropR scrubR normR =
        ((run_step stm "normalize" normR (normalizing_tmp base ext)
          (output_path base ext)).1, ex0 ++ ["normalize"], some normR) ∧
      stm.fs.hasPath (output_path base ext) = false := by
  obtain ⟨h1, h2, -, -, -, -, -, -, -⟩ := inflight_ne_stable base ext
  by_cases hn : st.fs.hasPath (novocals_path base ext) = true
  · refine ⟨st, [], ?_, ho⟩
    unfold run_pipeline
    rw [if_pos (by simp [hn])]
    unfold pipeline_step2
    rw [if_pos (by simp [hn])]
    rw [pipeline_step3_norm_fail base ext st [] normR ho hr]
  · have hn2 : st.fs.hasPath (novocals_path base ext) = false := by
      simpa using hn
    have hsr : scrubR = .ok ∧ (st.fs.hasPath (cropped_path base ext) = true ∨
        cropR = .ok) := by
      rcases hreach with h | h
      · exact absurd h hn
      · exact h
    obtain ⟨hsr1, hcreach⟩ := hsr
    subst hsr1
    by_cases hc : st.fs.hasPath (cropped_path base ext) = true
    · obtain ⟨stm, heq, hbit⟩ :=
        pipeline_step2_norm_fail base ext st [] normR ho hn2 hr
      refine ⟨stm, [] ++ ["scrub_voices"], ?_, hbit⟩
      unfold run_pipeline
      rw [if_pos (by simp [hc])]
      exact heq
    · have hc2 : st.fs.hasPath (cropped_path base ext) = false := by
        simpa using hc
      have hcr : cropR = .ok := by
        rcases hcreach with h | h
        · exact absurd h hc
        · exact h
      subst hcr
      rcases hq : run_step st "crop" .ok (cropping_tmp base ext)
        (cropped_path base ext) with ⟨st1, e⟩
      have he := run_step_err st "crop" .ok (cropping_tmp base ext)
        (cropped_path base ext)
      rw [hq] at he
      simp only at he
      subst he
      have hfs : st1.fs = (st.fs.add (cropping_tmp base ext)).replace
          (cropping_tmp base ext) (cropped_path base ext) := by
        rw [← run_step_fs_ok st "crop" (cropping_tmp base ext)
          (cropped_path base ext), hq]
      have hb1 : st1.fs.hasPath (output_path base ext) = false := by
        rw [hfs]
        simp only [FS.replace, FS.hasPath_add, FS.hasPath_del, ho]
        simp [beq_false_of_ne (cropped_ne_output base ext),
          beq_false_of_ne (Ne.symm h1), h1]
      have hb2 : st1.fs.hasPath (novocals_path base ext) = false := by
        rw [hfs]
        simp only [FS.replace, FS.hasPath_add, FS.hasPath_del, hn2]
        simp [beq_false_of_ne (cropped_ne_novocals base ext),
          beq_false_of_ne (Ne.symm h2), h2]
      obtain ⟨stm, heq, hbit⟩ :=
        pipeline_step2_norm_fail base ext st1 ["crop"] normR hb1 hb2 hr
      refine ⟨stm, ["crop"] ++ ["scrub_voices"], ?_, hbit⟩
      unfold run_pipeline
      rw [if_neg (by simp [ho, hn2, hc2])]
      rw [hq]
      show pipeline_step2 base ext st1 ["crop"] .ok normR = _
      exact heq

/-- The guarantees of the claim on the final state of one run after a step
function raised: in-flight file deleted, stable path never created, the
sidecar step record failed with the error text and duration, no later
step executed, item status failed, and the process exits nonzero. -/
def step_failure_contract (pv : PVState) (stepName : String)
    (laterSteps : List String) (tmp stable : String) (r : StepFnResult) :
    Prop :=
  pv.fs.hasPath tmp = false ∧
  pv.fs.hasPath stable = false ∧
  pv.sidecar.getStep stepName = some (failedRec r) ∧
  (∀ s ∈ laterSteps, s ∉ pv.executed) ∧
  pv.sidecar.status = some "failed" ∧
  ∃ c, pv.outcome = PVOutcome.exited c

/-- `_run_step` only ever touches its own tmp and stable paths. -/
theorem run_step_fs_pres (st : RunState) (n : String) (r : StepFnResult)
    (tmp stable p : String) (htp : tmp ≠ p) (hsp : stable ≠ p) :
    (run_step st n r tmp stable).1.fs.hasPath p = st.fs.hasPath p := by
  cases r with
  | ok =>
    simp [run_step, FS.replace, beq_false_of_ne htp, beq_false_of_ne hsp,
      beq_false_of_ne (Ne.symm htp)]
  | sysExit c t =>
    cases t <;>
      simp [run_step, StepFnResult.tmpLeft, beq_false_of_ne htp,
        beq_false_of_ne (Ne.symm htp)]
  | exc m t =>
    cases t <;>
      simp [run_step, StepFnResult.tmpLeft, beq_false_of_ne htp,
        beq_false_of_ne (Ne.symm htp)]

/-- Step 3 only ever touches the normalizing tmp and the output path. -/
theorem pipeline_step3_fs_pres (base ext : String) (st : RunState)
    (ex : List String) (normR : StepFnResult) (p : String)
    (h1 : normalizing_tmp base ext ≠ p) (h2 : output_path base ext ≠ p) :
    (pipeline_step3 base ext st ex normR).1.fs.hasPath p = st.fs.hasPath p := by
  unfold pipeline_step3
  split
  · rfl
  · exact run_step_fs_pres st "normalize" normR _ _ p h1 h2

/-- Steps 2 and 3 only touch their own tmp and stable paths. -/
theorem pipeline_step2_fs_pres (base ext : String) (st : RunState)
    (ex : List String) (scrubR normR : StepFnResult) (p : String)
    (h1 : scrubbing_tmp base ext ≠ p) (h2 : novocals_path base ext ≠ p)
    (h3 : normalizing_tmp base ext ≠ p) (h4 : output_path base ext ≠ p) :
    (pipeline_step2 base ext st ex scrubR normR).1.fs.hasPath p =
      st.fs.hasPath p := by
  unfold pipeline_step2
  split
  · exact pipeline_step3_fs_pres base ext st ex normR p h3 h4
  · split
    case h_1 st1 heq =>
      have hfst : (run_step st "scrub_voices" scrubR (scrubbing_tmp base ext)
          (novocals_path base ext)).1 = st1 := by rw [heq]
      rw [pipeline_step3_fs_pres base ext st1 _ normR p h3 h4, ← hfst]
      exact run_step_fs_pres st "scrub_voices" scrubR _ _ p h1 h2
    case h_2 st1 e heq =>
      have hfst : (run_step st "scrub_voices" scrubR (scrubbing_tmp base ext)
          (novocals_path base ext)).1 = st1 := by rw [heq]
      show st1.fs.hasPath p = st.fs.hasPath p
      rw [← hfst]
      exact run_step_fs_pres st "scrub_voices" scrubR _ _ p h1 h2

/-- The pipeline phase only touches the three tmp paths and the three
stable paths. -/
theorem run_pipeline_fs_pres (base ext : String) (st : RunState)
    (cropR scrubR normR : StepFnResult) (p : String)
    (h1 : cropping_tmp base ext ≠ p) (h2 : cropped_path base ext ≠ p)
    (h3 : scrubbing_tmp base ext ≠ p) (h4 : novocals_path base ext ≠ p)
    (h5 : normalizing_tmp base ext ≠ p) (h6 : output_path base ext ≠ p) :
    (run_pipeline base ext st cropR scrubR normR).1.fs.hasPath p =
      st.fs.hasPath p := by
  unfold run_pipeline
  split
  · exact pipeline_step2_fs_pres base ext st [] scrubR normR p h3 h4 h5 h6
  · split
    case h_1 st1 heq =>
      have hfst : (run_step st "crop" cropR (cropping_tmp base ext)
          (cropped_path base ext)).1 = st1 := by rw [heq]
      rw [pipeline_step2_fs_pres base ext st1 _ scrubR normR p h3 h4 h5 h6,
        ← hfst]
      exact run_step_fs_pres st "crop" cropR _ _ p h1 h2
    case h_2 st1 e heq =>
      have hfst : (run_step st "crop" cropR (cropping_tmp base ext)
          (cropped_path base ext)).1 = st1 := by rw [heq]
      show st1.fs.hasPath p = st.fs.hasPath p
      rw [← hfst]
      exact run_step_fs_pres st "crop" cropR _ _ p h1 h2

/-- With every step function succeeding, the pipeline phase raises
nothing. -/
theorem run_pipeline_allok_err (base ext : String) (st : RunState) :
    (run_pipeline base ext st .ok .ok .ok).2.2 = none := by
  unfold run_pipeline pipeline_step2 pipeline_step3 run_step
  dsimp only
  split
  · split
    · split <;> rfl
    · split <;> rfl
  · split
    · split <;> rfl
    · split <;> rfl

/-- With every step function succeeding, the final output exists when the
pipeline phase ends. -/
theorem run_pipeline_allok_output (base ext : String) (st : RunState) :
    (run_pipeline base ext st .ok .ok .ok).1.fs.hasPath
      (output_path base ext) = true := by
  unfold run_pipeline pipeline_step2 pipeline_step3 run_step
  dsimp only
  split
  · split
    · split
      case isTrue h => exact h
      case isFalse h => simp [FS.replace]
    · split
      case isTrue h => exact h
      case isFalse h => simp [FS.replace]
  · split
    · split
      case isTrue h => exact h
      case isFalse h => simp [FS.replace]
    · split
      case isTrue h => exact h
      case isFalse h => simp [FS.replace]

/-- When every platform upload succeeds and the tunnel is up, every entry
of the results map is a success. -/
theorem upload_launch_results_ok (skipDone skipP : List String)
    (fn : String → UploadFnResult) (hfn : ∀ n, fn n = .ok) :
    ∀ (l : List String) (st : UploadState),
      (∀ e ∈ st.results, e.2.1 = true) →
      ∀ e ∈ (l.foldl (upload_launch true skipDone skipP fn) st).results,
        e.2.1 = true := by
  intro l
  induction l with
  | nil => intro st h; exact h
  | cons a l ih =>
    intro st h
    apply ih
    unfold upload_launch
    split
    · exact h
    · split
      · exact h
      · split
        case isTrue hcond => simp at hcond
        case isFalse hcond =>
          rw [hfn a]
          unfold upload_worker
          intro e he
          rcases List.mem_append.mp he with h1 | h1
          · exact h e h1
          · simp only [List.mem_singleton] at h1
            rw [h1]

theorem upload_one_video_results_ok (sc0 : Option Sidecar)
    (skipP : List String) (fn : String → UploadFnResult)
    (hfn : ∀ n, fn n = .ok) :
    ∀ e ∈ (upload_one_video sc0 skipP true fn).results, e.2.1 = true := by
  unfold upload_one_video
  apply upload_launch_results_ok _ _ _ hfn
  intro e he
  simp only [List.mem_map] at he
  obtain ⟨n, hn, rfl⟩ := he
  rfl

/-- Literal suffix lengths used by the distinctness instances. -/
theorem len_final : ("_final" : String).length = 6 := by decide

theorem len_cropped : ("_cropped" : String).length = 8 := by decide

theorem len_novocals : ("_novocals" : String).length = 9 := by decide

theorem len_statusjson : (".status.json" : String).length = 12 := by decide

theorem len_processed : ("processed/" : String).length = 10 := by decide

theorem processed_ne {p q : String} (h : 10 + p.length ≠ q.length) :
    processed_of p ≠ q :=
  ne_of_len (by
    simp only [processed_of, String.length_append, len_processed]
    omega)

/-- `process_video` on a successful pipeline phase followed by an
all-successful upload fanout: the archival branch. -/
theorem process_video_success_char (base ext : String) (fs0 : FS)
    (sc0 : Option Sidecar) (cropR scrubR normR : StepFnResult)
    (skipP : List String) (ngrokUp : Bool) (fn : String → UploadFnResult)
    (st1 : RunState) (ex : List String)
    (hrp : run_pipeline base ext ⟨fs0.add (sidecar_path base ext),
      init_sidecar base ext sc0⟩ cropR scrubR normR = (st1, ex, none))
    (hall : (upload_one_video (some st1.sidecar) skipP ngrokUp fn).results.any
      (fun e => !e.2.1) = false) :
    process_video base ext fs0 sc0 cropR scrubR normR true skipP ngrokUp fn =
      { fs := (((move_if_present (move_if_present (move_if_present
            (st1.fs, []) (input_path base ext)) (output_path base ext))
            (sidecar_path base ext)).1.del (cropped_path base ext)).del
            (novocals_path base ext)),
        sidecar := ((upload_one_video (some st1.sidecar) skipP ngrokUp
          fn).sidecar.getD st1.sidecar).setStatus "done",
        executed := ex,
        invoked := (upload_one_video (some st1.sidecar) skipP ngrokUp
          fn).invoked,
        results := (upload_one_video (some st1.sidecar) skipP ngrokUp
          fn).results,
        moved := (move_if_present (move_if_present (move_if_present
          (st1.fs, []) (input_path base ext)) (output_path base ext))
          (sidecar_path base ext)).2,
        deletedIntermediates :=
          (if (move_if_present (move_if_present (move_if_present
              (st1.fs, []) (input_path base ext)) (output_path base ext))
              (sidecar_path base ext)).1.hasPath (cropped_path base ext)
            then [cropped_path base ext] else []) ++
          (if ((move_if_present (move_if_present (move_if_present
              (st1.fs, []) (input_path base ext)) (output_path base ext))
              (sidecar_path base ext)).1.del (cropped_path base ext)).hasPath
                (novocals_path base ext)
            then [novocals_path base ext] else []),
        outcome := .returned (output_path base ext) } := by
  unfold process_video
  simp only [hrp]
  rw [if_neg (by simp)]
  rw [if_neg (by simp [hall])]

/-- C3: for every step whose step function raises, the in-flight temporary
file is deleted, the step sidecar record is written with failed status, the
error text and the duration, the in-flight file is never promoted to the
stable path, no later step of the item is attempted in the same run, and
the item sidecar status becomes failed (with a nonzero exit). One conjunct
per step, each under the filesystem conditions that make that step run. -/
theorem C3_step_failure (base ext : String) (fs0 : FS) (sc0 : Option Sidecar)
    (cropR scrubR normR : StepFnResult) (upl : Bool) (skipP : List String)
    (ngrokUp : Bool) (fn : String → UploadFnResult) :
    (fs0.hasPath (output_path base ext) = false →
      fs0.hasPath (novocals_path base ext) = false →
      fs0.hasPath (cropped_path base ext) = false →
      cropR ≠ .ok →
      step_failure_contract (process_video base ext fs0 sc0 cropR scrubR normR
          upl skipP ngrokUp fn) "crop" ["scrub_voices", "normalize"]
        (cropping_tmp base ext) (cropped_path base ext) cropR) ∧
    (fs0.hasPath (output_path base ext) = false →
      fs0.hasPath (novocals_path base ext) = false →
      (fs0.hasPath (cropped_path base ext) = true ∨ cropR = .ok) →
      scrubR ≠ .ok →
      step_failure_contract (process_video base ext fs0 sc0 cropR scrubR normR
          upl skipP ngrokUp fn) "scrub_voices" ["normalize"]
        (scrubbing_tmp base ext) (novocals_path base ext) scrubR) ∧
    (fs0.hasPath (output_path base ext) = false →
      (fs0.hasPath (novocals_path base ext) = true ∨
        (scrubR = .ok ∧ (fs0.hasPath (cropped_path base ext) = true ∨
          cropR = .ok))) →
      normR ≠ .ok →
      step_failure_contract (process_video base ext fs0 sc0 cropR scrubR normR
          upl skipP ngrokUp fn) "normalize" []
        (normalizing_tmp base ext) (output_path base ext) normR) := by
  obtain ⟨hi1, hi2, hi3, hi4, hi5, hi6, hi7, hi8, hi9⟩ :=
    inflight_ne_stable base ext
  have hso := beq_false_of_ne (sidecar_ne_output base ext)
  have hsn := beq_false_of_ne (sidecar_ne_novocals base ext)
  have hsc := beq_false_of_ne (sidecar_ne_cropped base ext)
  refine ⟨?_, ?_, ?_⟩
  · intro ho hn hc hr
    have ho1 : (fs0.add (sidecar_path base ext)).hasPath
        (output_path base ext) = false := by simp [ho, hso]
    have hn1 : (fs0.add (sidecar_path base ext)).hasPath
        (novocals_path base ext) = false := by simp [hn, hsn]
    have hc1 : (fs0.add (sidecar_path base ext)).hasPath
        (cropped_path base ext) = false := by simp [hc, hsc]
    have hrp := run_pipeline_crop_fail base ext
      ⟨fs0.add (sidecar_path base ext), init_sidecar base ext sc0⟩
      cropR scrubR normR ho1 hn1 hc1 hr
    rw [run_step_fail _ "crop" cropR _ _ hr] at hrp
    have hpv := process_video_fail_char base ext fs0 sc0 cropR scrubR normR
      upl skipP ngrokUp fn _ _ _ hrp
    rw [step_failure_contract, hpv]
    refine ⟨?_, ?_, ?_, ?_, ?_, ⟨_, rfl⟩⟩
    · simp
    · by_cases ht : cropR.tmpLeft = true <;>
        simp [ht, hc1, beq_false_of_ne hi3, beq_false_of_ne (Ne.symm hi3)]
    · simp only [Sidecar.getStep_setStatus]
      exact Sidecar.getStep_setStep_same _ _ _
    · intro s hs
      fin_cases hs <;> simp
    · simp
  · intro ho hn hreach hr
    have ho1 : (fs0.add (sidecar_path base ext)).hasPath
        (output_path base ext) = false := by simp [ho, hso]
    have hn1 : (fs0.add (sidecar_path base ext)).hasPath
        (novocals_path base ext) = false := by simp [hn, hsn]
    have hreach1 : ((⟨fs0.add (sidecar_path base ext),
        init_sidecar base ext sc0⟩ : RunState)).fs.hasPath
          (cropped_path base ext) = true ∨ cropR = .ok := by
      rcases hreach with h | h
      · left; simp [h]
      · right; exact h
    obtain ⟨stm, heq, hbn, hbo⟩ := run_pipeline_scrub_fail base ext
      ⟨fs0.add (sidecar_path base ext), init_sidecar base ext sc0⟩
      cropR scrubR normR ho1 hn1 hreach1 hr
    rw [run_step_fail stm "scrub_voices" scrubR _ _ hr] at heq
    have hpv := process_video_fail_char base ext fs0 sc0 cropR scrubR normR
      upl skipP ngrokUp fn _ _ _ heq
    rw [step_failure_contract, hpv]
    refine ⟨?_, ?_, ?_, ?_, ?_, ⟨_, rfl⟩⟩
    · simp
    · by_cases ht : scrubR.tmpLeft = true <;>
        simp [ht, hbn, beq_false_of_ne hi5, beq_false_of_ne (Ne.symm hi5)]
    · simp only [Sidecar.getStep_setStatus]
      exact Sidecar.getStep_setStep_same _ _ _
    · intro s hs
      fin_cases hs
      by_cases hcb : ((⟨fs0.add (sidecar_path base ext),
          init_sidecar base ext sc0⟩ : RunState)).fs.hasPath
            (cropped_path base ext) = true <;>
        simp [hcb]
    · simp
  · intro ho hreach hr
    have ho1 : (fs0.add (sidecar_path base ext)).hasPath
        (output_path base ext) = false := by simp [ho, hso]
    have hreach1 : ((⟨fs0.add (sidecar_path base ext),
        init_sidecar base ext sc0⟩ : RunState)).fs.hasPath
          (novocals_path base ext) = true ∨
        (scrubR = .ok ∧ (((⟨fs0.add (sidecar_path base ext),
          init_sidecar base ext sc0⟩ : RunState)).fs.hasPath
            (cropped_path base ext) = true ∨ cropR = .ok)) := by
      rcases hreach with h | ⟨h1, h2⟩
      · left; simp [h]
      · right
        refine ⟨h1, ?_⟩
        rcases h2 with h | h
        · left; simp [h]
        · right; exact h
    obtain ⟨stm, ex0, heq, hbo⟩ := run_pipeline_norm_fail base ext
      ⟨fs0.add (sidecar_path base ext), init_sidecar base ext sc0⟩
      cropR scrubR normR ho1 hreach1 hr
    rw [run_step_fail stm "normalize" normR _ _ hr] at heq
    have hpv := process_video_fail_char base ext fs0 sc0 cropR scrubR normR
      upl skipP ngrokUp fn _ _ _ heq
    rw [step_failure_contract, hpv]
    refine ⟨?_, ?_, ?_, ?_, ?_, ⟨_, rfl⟩⟩
    · simp
    · by_cases ht : normR.tmpLeft = true <;>
        simp [ht, hbo, beq_false_of_ne hi7, beq_false_of_ne (Ne.symm hi7)]
    · simp only [Sidecar.getStep_setStatus]
      exact Sidecar.getStep_setStep_same _ _ _
    · intro s hs
      simp at hs
    · simp

/-- The results-map entry `_upload` produces for its own platform, as a
function of the upload function outcome alone. -/
def outcome_entry : UploadFnResult → Bool × Option String
  | .ok => (true, none)
  | .sysExit => (false, some "upload exited with error")
  | .exc m => (false, some m)

/-- The sidecar record `_upload` leaves for its own platform, as a
function of the upload function outcome alone. -/
def outcome_rec : UploadFnResult → StepRec
  | .ok => { status := "done", durationRecorded := true }
  | .sysExit => { status := "failed", error := some "upload exited with error",
                  durationRecorded := true }
  | .exc m => { status := "failed", error := some m, durationRecorded := true }

/-- Lookup of one platform in the results map. -/
def results_get (rs : List (String × Bool × Option String)) (n : String) :
    Option (Bool × Option String) :=
  (rs.find? (fun e => e.1 == n)).map (fun e => e.2)

/-- Lookup of one step key in the orchestrator sidecar. -/
def usc_get (u : UploadState) (k : String) : Option StepRec :=
  u.sidecar.bind (fun sc => sc.getStep k)

theorem upload_worker_results (st : UploadState) (n : String)
    (r : UploadFnResult) :
    (upload_worker st n r).results = st.results ++ [(n, outcome_entry r)] := by
  cases r <;> rfl

theorem upload_worker_invoked (st : UploadState) (n : String)
    (r : UploadFnResult) :
    (upload_worker st n r).invoked = st.invoked ++ [n] := by
  cases r <;> rfl

theorem upload_worker_sidecar (st : UploadState) (n : String)
    (r : UploadFnResult) :
    (upload_worker st n r).sidecar = st.sidecar.map (fun sc =>
      (sc.setStep (platform_key n) { status := "in_progress" }).setStep
        (platform_key n) (outcome_rec r)) := by
  cases r <;> cases hsc : st.sidecar <;>
    simp [upload_worker, outcome_rec, hsc]

theorem upload_launch_skipDone (ng : Bool) (sd sp : List String)
    (fn : String → UploadFnResult) (st : UploadState) (n : String)
    (h : sd.contains n = true) :
    upload_launch ng sd sp fn st n = st := by
  have hm : n ∈ sd := by
    rw [contains_eq_decide] at h
    exact of_decide_eq_true h
  simp [upload_launch, hm]

theorem upload_launch_run (ng : Bool) (sd sp : List String)
    (fn : String → UploadFnResult) (st : UploadState) (n : String)
    (h1 : sd.contains n = false) (h2 : sp.contains n = false)
    (h3 : (n == "Instagram Reels" && !ng) = false) :
    upload_launch ng sd sp fn st n = upload_worker st n (fn n) := by
  have hm1 : n ∉ sd := by
    rw [contains_eq_decide] at h1
    exact of_decide_eq_false h1
  have hm2 : n ∉ sp := by
    rw [contains_eq_decide] at h2
    exact of_decide_eq_false h2
  have hga : ¬ (n = "Instagram Reels" ∧ ng = false) := by
    rintro ⟨hn, hng⟩
    rw [hn, hng] at h3
    simp at h3
  simp [upload_launch, hm1, hm2, hga]

/-- Each launch either leaves the results map unchanged or appends one
entry keyed by its own platform. -/
theorem upload_launch_results_shape (ng : Bool) (sd sp : List String)
    (fn : String → UploadFnResult) (st : UploadState) (n : String) :
    (upload_launch ng sd sp fn st n).results = st.results ∨
    ∃ x, (upload_launch ng sd sp fn st n).results = st.results ++ [(n, x)] := by
  unfold upload_launch
  split
  · exact Or.inl rfl
  · split
    · exact Or.inl rfl
    · split
      · exact Or.inr ⟨_, rfl⟩
      · exact Or.inr ⟨_, by rw [upload_worker_results]⟩

theorem upload_launch_invoked_shape (ng : Bool) (sd sp : List String)
    (fn : String → UploadFnResult) (st : UploadState) (n : String) :
    (upload_launch ng sd sp fn st n).invoked = st.invoked ∨
    (upload_launch ng sd sp fn st n).invoked = st.invoked ++ [n] := by
  unfold upload_launch
  split
  · exact Or.inl rfl
  · split
    · exact Or.inl rfl
    · split
      · exact Or.inl rfl
      · exact Or.inr (upload_worker_invoked st n (fn n))

/-- Each launch touches at most its own platform key in the sidecar. -/
theorem upload_launch_usc_other (ng : Bool) (sd sp : List String)
    (fn : String → UploadFnResult) (st : UploadState) (n : String)
    (k : String) (hk : k ≠ platform_key n) :
    usc_get (upload_launch ng sd sp fn st n) k = usc_get st k := by
  unfold upload_launch
  split
  · rfl
  · split
    · rfl
    · split
      · cases hsc : st.sidecar with
        | none => simp [usc_get, hsc]
        | some sc =>
          simp only [usc_get, hsc]
          simp [Sidecar.getStep_setStep_ne _ _ k _ hk]
      · simp only [usc_get, upload_worker_sidecar]
        cases hsc : st.sidecar with
        | none => simp [hsc]
        | some sc => simp [hsc, Sidecar.getStep_setStep_ne _ _ k _ hk]

theorem upload_launch_sidecar_isSome (ng : Bool) (sd sp : List String)
    (fn : String → UploadFnResult) (st : UploadState) (n : String) :
    (upload_launch ng sd sp fn st n).sidecar.isSome = st.sidecar.isSome := by
  unfold upload_launch
  split
  · rfl
  · split
    · rfl
    · split
      · cases hsc : st.sidecar <;> simp [hsc]
      · rw [upload_worker_sidecar]
        cases hsc : st.sidecar <;> simp [hsc]

/-- Folding further launches over other platforms does not change an
already-present results entry nor add one for this platform. -/
theorem fold_results_get_pres (ng : Bool) (sd sp : List String)
    (fn : String → UploadFnResult) (n : String) :
    ∀ (l : List String), (∀ a ∈ l, a ≠ n) → ∀ st : UploadState,
      results_get ((l.foldl (upload_launch ng sd sp fn) st).results) n =
        results_get st.results n := by
  intro l
  induction l with
  | nil => intro h st; rfl
  | cons a l ih =>
    intro h st
    have ha : a ≠ n := h a (List.mem_cons_self a l)
    have hrec := ih (fun b hb => h b (List.mem_cons_of_mem a hb))
      (upload_launch ng sd sp fn st a)
    rw [List.foldl_cons, hrec]
    rcases upload_launch_results_shape ng sd sp fn st a with hsh | ⟨x, hsh⟩
    · rw [hsh]
    · rw [hsh]
      simp only [results_get, List.find?_append]
      have : List.find? (fun e => e.1 == n) [(a, x)] = none := by
        simp [List.find?_cons, ha]
      rw [this, Option.or_none]

theorem fold_invoked_pres (ng : Bool) (sd sp : List String)
    (fn : String → UploadFnResult) (n : String) :
    ∀ (l : List String), (∀ a ∈ l, a ≠ n) → ∀ st : UploadState,
      (n ∈ (l.foldl (upload_launch ng sd sp fn) st).invoked ↔
        n ∈ st.invoked) := by
  intro l
  induction l with
  | nil => intro h st; exact Iff.rfl
  | cons a l ih =>
    intro h st
    have ha : a ≠ n := h a (List.mem_cons_self a l)
    have hrec := ih (fun b hb => h b (List.mem_cons_of_mem a hb))
      (upload_launch ng sd sp fn st a)
    rw [List.foldl_cons]
    rw [hrec]
    rcases upload_launch_invoked_shape ng sd sp fn st a with hsh | hsh
    · rw [hsh]
    · rw [hsh]
      simp [Ne.symm ha]

theorem fold_usc_pres (ng : Bool) (sd sp : List String)
    (fn : String → UploadFnResult) (k : String) :
    ∀ (l : List String), (∀ a ∈ l, k ≠ platform_key a) → ∀ st : UploadState,
      usc_get (l.foldl (upload_launch ng sd sp fn) st) k = usc_get st k := by
  intro l
  induction l with
  | nil => intro h st; rfl
  | cons a l ih =>
    intro h st
    have ha := h a (List.mem_cons_self a l)
    have hrec := ih (fun b hb => h b (List.mem_cons_of_mem a hb))
      (upload_launch ng sd sp fn st a)
    rw [List.foldl_cons, hrec]
    exact upload_launch_usc_other ng sd sp fn st a k ha

theorem fold_sidecar_isSome (ng : Bool) (sd sp : List String)
    (fn : String → UploadFnResult) :
    ∀ (l : List String) (st : UploadState),
      (l.foldl (upload_launch ng sd sp fn) st).sidecar.isSome =
        st.sidecar.isSome := by
  intro l
  induction l with
  | nil => intro st; rfl
  | cons a l ih =>
    intro st
    rw [List.foldl_cons, ih]
    exact upload_launch_sidecar_isSome ng sd sp fn st a

/-- Variants of the fold preservation lemmas in which the target platform
may itself occur in the remaining list, but is skipped because the sidecar
already marks it done. -/
theorem fold_results_get_pres_done (ng : Bool) (sd sp : List String)
    (fn : String → UploadFnResult) (n : String) (hd : sd.contains n = true) :
    ∀ (l : List String) (st : UploadState),
      results_get ((l.foldl (upload_launch ng sd sp fn) st).results) n =
        results_get st.results n := by
  intro l
  induction l with
  | nil => intro st; rfl
  | cons a l ih =>
    intro st
    rw [List.foldl_cons]
    by_cases ha : a = n
    · subst ha
      rw [upload_launch_skipDone ng sd sp fn st a hd, ih]
    · rw [ih]
      rcases upload_launch_results_shape ng sd sp fn st a with hsh | ⟨x, hsh⟩
      · rw [hsh]
      · rw [hsh]
        simp only [results_get, List.find?_append]
        have hfe : List.find? (fun e => e.1 == n) [(a, x)] = none := by
          simp [List.find?_cons, ha]
        rw [hfe, Option.or_none]

theorem fold_invoked_pres_done (ng : Bool) (sd sp : List String)
    (fn : String → UploadFnResult) (n : String) (hd : sd.contains n = true) :
    ∀ (l : List String) (st : UploadState),
      (n ∈ (l.foldl (upload_launch ng sd sp fn) st).invoked ↔
        n ∈ st.invoked) := by
  intro l
  induction l with
  | nil => intro st; exact Iff.rfl
  | cons a l ih =>
    intro st
    rw [List.foldl_cons]
    by_cases ha : a = n
    · subst ha
      rw [upload_launch_skipDone ng sd sp fn st a hd, ih]
    · rw [ih]
      rcases upload_launch_invoked_shape ng sd sp fn st a with hsh | hsh
      · rw [hsh]
      · rw [hsh]
        simp [Ne.symm ha]

/-- The skip set is the filter of the platform list by done status. -/
theorem skipDone_contains (sc0 : Option Sidecar) (n : String)
    (hn : n ∈ PLATFORMS) :
    (PLATFORMS.filter (fun m => stepDone sc0 m)).contains n =
      stepDone sc0 n := by
  rw [contains_eq_decide]
  by_cases hd : stepDone sc0 n = true
  · simp [List.mem_filter, hn, hd]
  · have hd2 : stepDone sc0 n = false := by simpa using hd
    simp [List.mem_filter, hd2]

/-- The initial results of the orchestrator hold the skipped-as-done
platforms, each reported as a success. -/
theorem results_get_skipDone_map (sd : List String) (n : String) :
    (n ∈ sd → results_get (sd.map (fun m => (m, true, none))) n =
      some (true, none)) ∧
    (n ∉ sd → results_get (sd.map (fun m => (m, true, none))) n = none) := by
  induction sd with
  | nil => exact ⟨fun h => absurd h (List.not_mem_nil n), fun _ => rfl⟩
  | cons a l ih =>
    constructor
    · intro h
      by_cases ha : a = n
      · subst ha
        simp [results_get, List.find?_cons]
      · have hl : n ∈ l := by
          rcases List.mem_cons.mp h with h1 | h1
          · exact absurd h1.symm ha
          · exact h1
        have := ih.1 hl
        simpa [results_get, List.find?_cons, ha] using this
    · intro h
      have ha : a ≠ n := fun hc => h (hc ▸ List.mem_cons_self a l)
      have hl : n ∉ l := fun hc => h (List.mem_cons_of_mem a hc)
      have := ih.2 hl
      simpa [results_get, List.find?_cons, ha] using this

/-- A platform already marked done in the sidecar is reported as a success
and its upload function is not invoked. -/
theorem upload_done_skipped (sc0 : Option Sidecar) (skipP : List String)
    (ng : Bool) (fn : String → UploadFnResult) (n : String)
    (hn : n ∈ PLATFORMS) (hd : stepDone sc0 n = true) :
    results_get (upload_one_video sc0 skipP ng fn).results n =
      some (true, none) ∧
    n ∉ (upload_one_video sc0 skipP ng fn).invoked := by
  unfold upload_one_video
  have hsd : (PLATFORMS.filter (fun m => stepDone sc0 m)).contains n = true :=
    by rw [skipDone_contains sc0 n hn, hd]
  have hmem : n ∈ PLATFORMS.filter (fun m => stepDone sc0 m) := by
    rw [contains_eq_decide] at hsd
    exact of_decide_eq_true hsd
  constructor
  · rw [fold_results_get_pres_done ng _ skipP fn n hsd]
    exact (results_get_skipDone_map _ n).1 hmem
  · rw [fold_invoked_pres_done ng _ skipP fn n hsd]
    simp

/-- A platform that is neither done, in the skip set, nor gated out gets
its own results entry and sidecar record, both functions of its own upload
outcome alone, and its upload function is invoked. -/
theorem upload_target_entry (sc0 : Option Sidecar) (skipP : List String)
    (ng : Bool) (fn : String → UploadFnResult) (n : String)
    (pre post : List String)
    (hsplit : PLATFORMS = pre ++ n :: post)
    (hpre : ∀ a ∈ pre, a ≠ n) (hpost : ∀ a ∈ post, a ≠ n)
    (hkey : ∀ a ∈ post, platform_key n ≠ platform_key a)
    (hn : n ∈ PLATFORMS)
    (hd : stepDone sc0 n = false)
    (hsp : skipP.contains n = false)
    (hg : (n == "Instagram Reels" && !ng) = false) :
    results_get (upload_one_video sc0 skipP ng fn).results n =
      some (outcome_entry (fn n)) ∧
    n ∈ (upload_one_video sc0 skipP ng fn).invoked ∧
    (sc0.isSome = true →
      usc_get (upload_one_video sc0 skipP ng fn) (platform_key n) =
        some (outcome_rec (fn n))) := by
  unfold upload_one_video
  have hsd : (PLATFORMS.filter (fun m => stepDone sc0 m)).contains n = false :=
    by rw [skipDone_contains sc0 n hn, hd]
  have hnotmem : n ∉ PLATFORMS.filter (fun m => stepDone sc0 m) := by
    rw [contains_eq_decide] at hsd
    exact of_decide_eq_false hsd
  set sd := PLATFORMS.filter (fun n => stepDone sc0 n) with hsddef
  rw [hsplit, List.foldl_append, List.foldl_cons]
  rw [upload_launch_run ng sd skipP fn _ n hsd hsp hg]
  have hbase : results_get (sd.map (fun m => (m, true, none))) n = none :=
    (results_get_skipDone_map sd n).2 hnotmem
  have hpreres : results_get ((pre.foldl (upload_launch ng sd skipP fn)
      { results := sd.map (fun n => (n, true, none)),
        sidecar := sc0, invoked := [] }).results) n = none := by
    rw [fold_results_get_pres ng sd skipP fn n pre hpre]
    exact hbase
  refine ⟨?_, ?_, ?_⟩
  · rw [fold_results_get_pres ng sd skipP fn n post hpost]
    rw [upload_worker_results]
    simp only [results_get] at hpreres ⊢
    have hfind : (List.find? (fun e => e.1 == n)
        ((pre.foldl (upload_launch ng sd skipP fn)
          { results := sd.map (fun n => (n, true, none)),
            sidecar := sc0, invoked := [] }).results)) = none := by
      cases hx : List.find? (fun e => e.1 == n)
          ((pre.foldl (upload_launch ng sd skipP fn)
            { results := sd.map (fun n => (n, true, none)),
              sidecar := sc0, invoked := [] }).results) with
      | none => rfl
      | some v =>
        rw [hx] at hpreres
        simp at hpreres
    rw [List.find?_append, hfind]
    simp [List.find?_cons]
  · rw [fold_invoked_pres ng sd skipP fn n post hpost]
    rw [upload_worker_invoked]
    simp
  · intro hsome
    rw [fold_usc_pres ng sd skipP fn (platform_key n) post hkey]
    simp only [usc_get, upload_worker_sidecar]
    have hps : ((pre.foldl (upload_launch ng sd skipP fn)
        { results := sd.map (fun n => (n, true, none)),
          sidecar := sc0, invoked := [] }).sidecar).isSome = true := by
      rw [fold_sidecar_isSome]
      exact hsome
    cases hsc : (pre.foldl (upload_launch ng sd skipP fn)
        { results := sd.map (fun n => (n, true, none)),
          sidecar := sc0, invoked := [] }).sidecar with
    | none => rw [hsc] at hps; simp at hps
    | some sc =>
      simp [Sidecar.getStep_setStep_same]

/-- The per-target contract for any platform in the module list. -/
theorem upload_target_entry_main (sc0 : Option Sidecar) (skipP : List String)
    (ng : Bool) (fn : String → UploadFnResult) (n : String)
    (hn : n ∈ PLATFORMS) (hd : stepDone sc0 n = false)
    (hsp : skipP.contains n = false)
    (hg : (n == "Instagram Reels" && !ng) = false) :
    results_get (upload_one_video sc0 skipP ng fn).results n =
      some (outcome_entry (fn n)) ∧
    n ∈ (upload_one_video sc0 skipP ng fn).invoked ∧
    (sc0.isSome = true →
      usc_get (upload_one_video sc0 skipP ng fn) (platform_key n) =
        some (outcome_rec (fn n))) := by
  fin_cases hn
  · exact upload_target_entry sc0 skipP ng fn "Instagram Reels" []
      ["YouTube Shorts", "TikTok"] rfl (by decide) (by decide) (by decide)
      (by decide) hd hsp hg
  · exact upload_target_entry sc0 skipP ng fn "YouTube Shorts"
      ["Instagram Reels"] ["TikTok"] rfl (by decide) (by decide) (by decide)
      (by decide) hd hsp hg
  · exact upload_target_entry sc0 skipP ng fn "TikTok"
      ["Instagram Reels", "YouTube Shorts"] [] rfl (by decide) (by decide)
      (by decide) (by decide) hd hsp hg

/-- C4: the result map of upload_one_video makes the overall run a success
iff every non-skipped target's outcome is done (otherwise the item is
marked failed and not archived); targets already done in the sidecar are
skipped and reported as successes; a target's results entry and sidecar
record are functions of its own outcome alone, so one target's failure
never changes another target's recorded outcome; and a later run skips
exactly the previously succeeded targets and re-invokes the failed ones. -/
theorem C4_publish_aggregation :
    (∀ (base ext : String) (fs0 : FS) (sc0 : Option Sidecar)
        (skipP : List String) (ng : Bool) (fn : String → UploadFnResult),
      ((process_video base ext fs0 sc0 .ok .ok .ok true skipP ng
          fn).results.any (fun e => !e.2.1) = false →
        (process_video base ext fs0 sc0 .ok .ok .ok true skipP ng
          fn).outcome = .returned (output_path base ext)) ∧
      ((process_video base ext fs0 sc0 .ok .ok .ok true skipP ng
          fn).results.any (fun e => !e.2.1) = true →
        (process_video base ext fs0 sc0 .ok .ok .ok true skipP ng
          fn).outcome = .exited 1 ∧
        (process_video base ext fs0 sc0 .ok .ok .ok true skipP ng
          fn).sidecar.status = some "failed" ∧
        (process_video base ext fs0 sc0 .ok .ok .ok true skipP ng
          fn).moved = [])) ∧
    (∀ (sc0 : Option Sidecar) (skipP : List String) (ng : Bool)
        (fn : String → UploadFnResult) (n : String),
      n ∈ PLATFORMS → stepDone sc0 n = true →
      results_get (upload_one_video sc0 skipP ng fn).results n =
        some (true, none) ∧
      n ∉ (upload_one_video sc0 skipP ng fn).invoked) ∧
    (∀ (sc0 : Option Sidecar) (skipP : List String) (ng : Bool)
        (fn : String → UploadFnResult) (n : String),
      n ∈ PLATFORMS → stepDone sc0 n = false →
      skipP.contains n = false → (n == "Instagram Reels" && !ng) = false →
      results_get (upload_one_video sc0 skipP ng fn).results n =
        some (outcome_entry (fn n)) ∧
      n ∈ (upload_one_video sc0 skipP ng fn).invoked ∧
      (sc0.isSome = true →
        usc_get (upload_one_video sc0 skipP ng fn) (platform_key n) =
          some (outcome_rec (fn n)))) ∧
    (∀ (sc : Sidecar) (skipP : List String)
        (fn fn2 : String → UploadFnResult) (n : String),
      n ∈ PLATFORMS → stepDone (some sc) n = false →
      skipP.contains n = false →
      (fn n = .ok →
        n ∉ (upload_one_video (upload_one_video (some sc) skipP true
          fn).sidecar skipP true fn2).invoked ∧
        results_get (upload_one_video (upload_one_video (some sc) skipP true
          fn).sidecar skipP true fn2).results n = some (true, none)) ∧
      (fn n ≠ .ok →
        n ∈ (upload_one_video (upload_one_video (some sc) skipP true
          fn).sidecar skipP true fn2).invoked)) := by
  refine ⟨?_, ?_, ?_, ?_⟩
  · intro base ext fs0 sc0 skipP ng fn
    rcases hrp : run_pipeline base ext ⟨fs0.add (sidecar_path base ext),
      init_sidecar base ext sc0⟩ .ok .ok .ok with ⟨st1, ex, err⟩
    have herr : err = none := by
      have h := run_pipeline_allok_err base ext ⟨fs0.add
        (sidecar_path base ext), init_sidecar base ext sc0⟩
      rw [hrp] at h
      simpa using h
    subst herr
    by_cases ha : ((upload_one_video (some st1.sidecar) skipP ng
        fn).results.any (fun e => !e.2.1)) = true
    · have hpv : process_video base ext fs0 sc0 .ok .ok .ok true skipP ng fn =
          { fs := st1.fs,
            sidecar := ((upload_one_video (some st1.sidecar) skipP ng
              fn).sidecar.getD st1.sidecar).setStatus "failed",
            executed := ex,
            invoked := (upload_one_video (some st1.sidecar) skipP ng
              fn).invoked,
            results := (upload_one_video (some st1.sidecar) skipP ng
              fn).results,
            moved := [], deletedIntermediates := [],
            outcome := .exited 1 } := by
        unfold process_video
        simp only [hrp]
        rw [if_neg (by simp), if_pos ha]
      constructor
      · intro h
        rw [hpv] at h
        simp only at h
        rw [ha] at h
        cases h
      · intro _
        rw [hpv]
        exact ⟨rfl, by simp, rfl⟩
    · have ha2 : ((upload_one_video (some st1.sidecar) skipP ng
          fn).results.any (fun e => !e.2.1)) = false := by simpa using ha
      have hchar := process_video_success_char base ext fs0 sc0 .ok .ok .ok
        skipP ng fn st1 ex hrp ha2
      constructor
      · intro _
        rw [hchar]
      · intro h
        rw [hchar] at h
        simp only at h
        rw [ha2] at h
        cases h
  · intro sc0 skipP ng fn n hn hd
    exact upload_done_skipped sc0 skipP ng fn n hn hd
  · intro sc0 skipP ng fn n hn hd hsp hg
    exact upload_target_entry_main sc0 skipP ng fn n hn hd hsp hg
  · intro sc skipP fn fn2 n hn hd hsp
    obtain ⟨hres1, hinv1, husc1⟩ := upload_target_entry_main (some sc) skipP
      true fn n hn hd hsp (by simp)
    have husc := husc1 rfl
    obtain ⟨sc1, hsc1⟩ : ∃ sc1, (upload_one_video (some sc) skipP true
        fn).sidecar = some sc1 := by
      cases hU : (upload_one_video (some sc) skipP true fn).sidecar with
      | none => rw [usc_get, hU] at husc; cases husc
      | some s => exact ⟨s, rfl⟩
    have hget : sc1.getStep (platform_key n) = some (outcome_rec (fn n)) := by
      rw [usc_get, hsc1] at husc
      simpa using husc
    constructor
    · intro hok
      have hdone : stepDone (upload_one_video (some sc) skipP true
          fn).sidecar n = true := by
        rw [hsc1]
        simp [stepDone, hget, hok, outcome_rec]
      obtain ⟨hr, hi⟩ := upload_done_skipped _ skipP true fn2 n hn hdone
      exact ⟨hi, hr⟩
    · intro hnok
      have hdone : stepDone (upload_one_video (some sc) skipP true
          fn).sidecar n = false := by
        rw [hsc1]
        simp only [stepDone, hget]
        cases hfn : fn n with
        | ok => exact absurd hfn hnok
        | sysExit => simp [outcome_rec]
        | exc m => simp [outcome_rec]
      obtain ⟨-, hi, -⟩ := upload_target_entry_main _ skipP true fn2 n hn
        hdone hsp (by simp)
      exact hi

/-- Witness for C4: a run with all targets succeeding returns the output;
a run in which YouTube fails exits 1 with a failed sidecar and no archive;
a target already done is skipped and reported as a success; a fresh target
gets its own entry; and after a run in which only YouTube failed, a second
run re-invokes YouTube only. -/
theorem C4_publish_aggregation_witness :
    ((process_video "clip" ".mp4" ["clip.mp4"] none .ok .ok .ok true [] true
        (fun _ => .ok)).outcome = .returned (output_path "clip" ".mp4")) ∧
    ((process_video "clip" ".mp4" ["clip.mp4"] none .ok .ok .ok true [] true
        (fun m => if m == "YouTube Shorts" then .exc "err" else .ok)).outcome =
          .exited 1 ∧
     (process_video "clip" ".mp4" ["clip.mp4"] none .ok .ok .ok true [] true
        (fun m => if m == "YouTube Shorts" then .exc "err" else
          .ok)).sidecar.status = some "failed" ∧
     (process_video "clip" ".mp4" ["clip.mp4"] none .ok .ok .ok true [] true
        (fun m => if m == "YouTube Shorts" then .exc "err" else .ok)).moved =
          []) ∧
    (results_get (upload_one_video
        (some ⟨none, none, [("upload_instagram_reels",
          { status := "done" })]⟩) [] true (fun _ => .ok)).results
        "Instagram Reels" = some (true, none) ∧
     "Instagram Reels" ∉ (upload_one_video
        (some ⟨none, none, [("upload_instagram_reels",
          { status := "done" })]⟩) [] true (fun _ => .ok)).invoked) ∧
    (results_get (upload_one_video (some ⟨none, none, []⟩) [] true
        (fun m => if m == "YouTube Shorts" then .exc "err" else .ok)).results
        "YouTube Shorts" = some (outcome_entry ((fun m =>
          if m == "YouTube Shorts" then .exc "err" else .ok)
            "YouTube Shorts")) ∧
     "YouTube Shorts" ∈ (upload_one_video (some ⟨none, none, []⟩) [] true
        (fun m => if m == "YouTube Shorts" then .exc "err" else
          .ok)).invoked ∧
     ((some (⟨none, none, []⟩ : Sidecar)).isSome = true →
       usc_get (upload_one_video (some ⟨none, none, []⟩) [] true
         (fun m => if m == "YouTube Shorts" then .exc "err" else .ok))
         (platform_key "YouTube Shorts") = some (outcome_rec ((fun m =>
           if m == "YouTube Shorts" then .exc "err" else .ok)
             "YouTube Shorts")))) ∧
    (((fun m => if m == "YouTube Shorts" then UploadFnResult.exc "err" else
        .ok) "YouTube Shorts" ≠ .ok) ∧
     "YouTube Shorts" ∈ (upload_one_video (upload_one_video
        (some ⟨none, none, []⟩) [] true (fun m =>
          if m == "YouTube Shorts" then .exc "err" else .ok)).sidecar []
        true (fun _ => .ok)).invoked) :=
  ⟨(C4_publish_aggregation.1 "clip" ".mp4" ["clip.mp4"] none [] true
      (fun _ => .ok)).1 (by decide),
   (C4_publish_aggregation.1 "clip" ".mp4" ["clip.mp4"] none [] true
      (fun m => if m == "YouTube Shorts" then .exc "err" else .ok)).2
      (by decide),
   C4_publish_aggregation.2.1 (some ⟨none, none, [("upload_instagram_reels",
      { status := "done" })]⟩) [] true (fun _ => .ok) "Instagram Reels"
      (by decide) (by decide),
   C4_publish_aggregation.2.2.1 (some ⟨none, none, []⟩) [] true
      (fun m => if m == "YouTube Shorts" then .exc "err" else .ok)
      "YouTube Shorts" (by decide) (by decide) (by decide) (by decide),
   ⟨by decide,
    (C4_publish_aggregation.2.2.2 ⟨none, none, []⟩ []
      (fun m => if m == "YouTube Shorts" then .exc "err" else .ok)
      (fun _ => .ok) "YouTube Shorts" (by decide) (by decide)
      (by decide)).2 (by decide)⟩⟩

/-- The gated branch of the launch loop: with the tunnel down, Instagram
Reels is recorded failed without its upload function being invoked, and
its failed record carries no duration. -/
theorem upload_launch_gate (sd sp : List String)
    (fn : String → UploadFnResult) (st : UploadState)
    (h1 : sd.contains "Instagram Reels" = false)
    (h2 : sp.contains "Instagram Reels" = false) :
    upload_launch false sd sp fn st "Instagram Reels" =
      { results := st.results ++
          [("Instagram Reels", false, some "ngrok not reachable")],
        sidecar := st.sidecar.map (fun sc =>
          sc.setStep (platform_key "Instagram Reels")
            { status := "failed", error := some "ngrok not reachable" }),
        invoked := st.invoked } := by
  have hm1 : "Instagram Reels" ∉ sd := by
    rw [contains_eq_decide] at h1
    exact of_decide_eq_false h1
  have hm2 : "Instagram Reels" ∉ sp := by
    rw [contains_eq_decide] at h2
    exact of_decide_eq_false h2
  simp [upload_launch, hm1, hm2]

/-- C5: when the ngrok reachability precheck fails, the Instagram Reels
target is recorded failed with the distinguishing reason without its
upload function being invoked, and the other targets still run. -/
theorem C5_reachability_gating (sc0 : Option Sidecar) (skipP : List String)
    (fn : String → UploadFnResult)
    (hd : stepDone sc0 "Instagram Reels" = false)
    (hsp : skipP.contains "Instagram Reels" = false) :
    results_get (upload_one_video sc0 skipP false fn).results
      "Instagram Reels" = some (false, some "ngrok not reachable") ∧
    "Instagram Reels" ∉ (upload_one_video sc0 skipP false fn).invoked ∧
    (sc0.isSome = true →
      usc_get (upload_one_video sc0 skipP false fn)
        (platform_key "Instagram Reels") =
        some { status := "failed", error := some "ngrok not reachable" }) ∧
    (∀ n ∈ ["YouTube Shorts", "TikTok"], stepDone sc0 n = false →
      skipP.contains n = false →
      n ∈ (upload_one_video sc0 skipP false fn).invoked) := by
  have hmain : ∀ n ∈ ["YouTube Shorts", "TikTok"], stepDone sc0 n = false →
      skipP.contains n = false →
      n ∈ (upload_one_video sc0 skipP false fn).invoked := by
    intro n hn hd2 hsp2
    have hnp : n ∈ PLATFORMS := by
      rcases List.mem_cons.mp hn with h | h
      · rw [h]; decide
      · simp only [List.mem_singleton] at h
        rw [h]; decide
    have hg : (n == "Instagram Reels" && !false) = false := by
      rcases List.mem_cons.mp hn with h | h
      · rw [h]; decide
      · simp only [List.mem_singleton] at h
        rw [h]; decide
    exact (upload_target_entry_main sc0 skipP false fn n hnp hd2 hsp2 hg).2.1
  have hsd : (PLATFORMS.filter (fun m => stepDone sc0 m)).contains
      "Instagram Reels" = false := by
    rw [skipDone_contains sc0 "Instagram Reels" (by decide), hd]
  have hnotmem : "Instagram Reels" ∉
      PLATFORMS.filter (fun m => stepDone sc0 m) := by
    rw [contains_eq_decide] at hsd
    exact of_decide_eq_false hsd
  refine ⟨?_, ?_, ?_, hmain⟩
  · unfold upload_one_video
    set sd := PLATFORMS.filter (fun n => stepDone sc0 n) with hsddef
    rw [show PLATFORMS = "Instagram Reels" ::
      ["YouTube Shorts", "TikTok"] from rfl]
    rw [List.foldl_cons]
    rw [upload_launch_gate sd skipP fn _ hsd hsp]
    rw [fold_results_get_pres false sd skipP fn "Instagram Reels" _
      (by decide)]
    have hbase : results_get (sd.map (fun m => (m, true, none)))
        "Instagram Reels" = none :=
      (results_get_skipDone_map sd "Instagram Reels").2 hnotmem
    simp only [results_get, List.find?_append] at hbase ⊢
    cases hx : List.find? (fun e => e.1 == "Instagram Reels")
        (sd.map (fun m => (m, true, none))) with
    | none => simp [List.find?_cons]
    | some v =>
      rw [hx] at hbase
      simp at hbase
  · unfold upload_one_video
    set sd := PLATFORMS.filter (fun n => stepDone sc0 n) with hsddef
    rw [show PLATFORMS = "Instagram Reels" ::
      ["YouTube Shorts", "TikTok"] from rfl]
    rw [List.foldl_cons]
    rw [upload_launch_gate sd skipP fn _ hsd hsp]
    rw [fold_invoked_pres false sd skipP fn "Instagram Reels" _ (by decide)]
    simp
  · intro hsome
    unfold upload_one_video
    set sd := PLATFORMS.filter (fun n => stepDone sc0 n) with hsddef
    rw [show PLATFORMS = "Instagram Reels" ::
      ["YouTube Shorts", "TikTok"] from rfl]
    rw [List.foldl_cons]
    rw [upload_launch_gate sd skipP fn _ hsd hsp]
    rw [fold_usc_pres false sd skipP fn (platform_key "Instagram Reels") _
      (by decide)]
    cases hsc : sc0 with
    | none => rw [hsc] at hsome; cases hsome
    | some sc =>
      simp only [usc_get, hsc]
      simp [Sidecar.getStep_setStep_same]

/-- Witness for C5 on a fresh sidecar with no skip set. -/
theorem C5_reachability_gating_witness :
    results_get (upload_one_video (some ⟨none, none, []⟩) [] false
      (fun _ => .ok)).results "Instagram Reels" =
        some (false, some "ngrok not reachable") ∧
    "Instagram Reels" ∉ (upload_one_video (some ⟨none, none, []⟩) [] false
      (fun _ => .ok)).invoked ∧
    ((some (⟨none, none, []⟩ : Sidecar)).isSome = true →
      usc_get (upload_one_video (some ⟨none, none, []⟩) [] false
        (fun _ => .ok)) (platform_key "Instagram Reels") =
        some { status := "failed", error := some "ngrok not reachable" }) ∧
    (∀ n ∈ ["YouTube Shorts", "TikTok"],
      stepDone (some ⟨none, none, []⟩) n = false →
      List.contains [] n = false →
      n ∈ (upload_one_video (some ⟨none, none, []⟩) [] false
        (fun _ => .ok)).invoked) :=
  C5_reachability_gating (some ⟨none, none, []⟩) [] (fun _ => .ok)
    (by decide) (by decide)

/-- C9: only on full success (every step and every publish target
succeeded) the sidecar status becomes done and the source file, the final
artifact and the sidecar document are moved into the processed
subdirectory while the intermediate stable artifacts are deleted; on any
failure none of these moves or deletions occur. The extension is assumed
not to start with an underscore (any real extension). -/
theorem C9_archival_on_full_success (base ext : String) (fs0 : FS)
    (sc0 : Option Sidecar) (skipP : List String)
    (fn : String → UploadFnResult)
    (hext : ext.data.head? ≠ some '_')
    (hin : fs0.hasPath (input_path base ext) = true)
    (hfn : ∀ n, fn n = .ok) :
    ((process_video base ext fs0 sc0 .ok .ok .ok true skipP true
        fn).sidecar.status = some "done" ∧
     (process_video base ext fs0 sc0 .ok .ok .ok true skipP true fn).moved =
       [(input_path base ext, processed_of (input_path base ext)),
        (output_path base ext, processed_of (output_path base ext)),
        (sidecar_path base ext, processed_of (sidecar_path base ext))] ∧
     (process_video base ext fs0 sc0 .ok .ok .ok true skipP true
        fn).fs.hasPath (processed_of (input_path base ext)) = true ∧
     (process_video base ext fs0 sc0 .ok .ok .ok true skipP true
        fn).fs.hasPath (processed_of (output_path base ext)) = true ∧
     (process_video base ext fs0 sc0 .ok .ok .ok true skipP true
        fn).fs.hasPath (processed_of (sidecar_path base ext)) = true ∧
     (process_video base ext fs0 sc0 .ok .ok .ok true skipP true
        fn).fs.hasPath (input_path base ext) = false ∧
     (process_video base ext fs0 sc0 .ok .ok .ok true skipP true
        fn).fs.hasPath (sidecar_path base ext) = false ∧
     (process_video base ext fs0 sc0 .ok .ok .ok true skipP true
        fn).fs.hasPath (cropped_path base ext) = false ∧
     (process_video base ext fs0 sc0 .ok .ok .ok true skipP true
        fn).fs.hasPath (novocals_path base ext) = false ∧
     (process_video base ext fs0 sc0 .ok .ok .ok true skipP true
        fn).outcome = .returned (output_path base ext)) ∧
    (∀ (cR sR nR : StepFnResult) (upl : Bool) (sp : List String) (ng : Bool)
        (fn2 : String → UploadFnResult) (c : Nat),
      (process_video base ext fs0 sc0 cR sR nR upl sp ng fn2).outcome =
        .exited c →
      (process_video base ext fs0 sc0 cR sR nR upl sp ng fn2).moved = [] ∧
      (process_video base ext fs0 sc0 cR sR nR upl sp ng
        fn2).deletedIntermediates = []) := by
  constructor
  · rcases hrp : run_pipeline base ext ⟨fs0.add (sidecar_path base ext),
      init_sidecar base ext sc0⟩ .ok .ok .ok with ⟨st1, ex, err⟩
    have herr : err = none := by
      have h := run_pipeline_allok_err base ext ⟨fs0.add
        (sidecar_path base ext), init_sidecar base ext sc0⟩
      rw [hrp] at h
      simpa using h
    subst herr
    have hout : st1.fs.hasPath (output_path base ext) = true := by
      have h := run_pipeline_allok_output base ext ⟨fs0.add
        (sidecar_path base ext), init_sidecar base ext sc0⟩
      rw [hrp] at h
      simpa using h
    have hinp : st1.fs.hasPath (input_path base ext) = true := by
      have hp := run_pipeline_fs_pres base ext ⟨fs0.add
          (sidecar_path base ext), init_sidecar base ext sc0⟩ .ok .ok .ok
        (input_path base ext)
        (Ne.symm (input_ne_mid base ext (by decide)))
        (Ne.symm (input_ne_mid base ext (by decide)))
        (Ne.symm (input_ne_mid base ext (by decide)))
        (Ne.symm (input_ne_mid base ext (by decide)))
        (Ne.symm (input_ne_mid base ext (by decide)))
        (Ne.symm (input_ne_mid base ext (by decide)))
      rw [hrp] at hp
      simp only at hp
      rw [hp]
      simp [hin]
    have hscp : st1.fs.hasPath (sidecar_path base ext) = true := by
      have hp := run_pipeline_fs_pres base ext ⟨fs0.add
          (sidecar_path base ext), init_sidecar base ext sc0⟩ .ok .ok .ok
        (sidecar_path base ext)
        (Ne.symm (sidecar_ne_mid base ext hext (by decide) (by decide)))
        (Ne.symm (sidecar_ne_mid base ext hext (by decide) (by decide)))
        (Ne.symm (sidecar_ne_mid base ext hext (by decide) (by decide)))
        (Ne.symm (sidecar_ne_mid base ext hext (by decide) (by decide)))
        (Ne.symm (sidecar_ne_mid base ext hext (by decide) (by decide)))
        (Ne.symm (sidecar_ne_mid base ext hext (by decide) (by decide)))
      rw [hrp] at hp
      simp only at hp
      rw [hp]
      simp
    have hany : (upload_one_video (some st1.sidecar) skipP true
        fn).results.any (fun e => !e.2.1) = false := by
      rw [List.any_eq_false]
      intro e he
      simp [upload_one_video_results_ok (some st1.sidecar) skipP fn hfn e he]
    have hchar := process_video_success_char base ext fs0 sc0 .ok .ok .ok
      skipP true fn st1 ex hrp hany
    have a1 : processed_of (input_path base ext) ≠ input_path base ext :=
      processed_ne (by
        simp only [input_path, String.length_append]
        omega)
    have a2 : processed_of (input_path base ext) ≠ output_path base ext :=
      processed_ne (by
        simp only [input_path, output_path, String.length_append, len_final]
        omega)
    have a3 : processed_of (input_path base ext) ≠ sidecar_path base ext :=
      processed_ne (by
        simp only [input_path, sidecar_path, String.length_append,
          len_statusjson]
        omega)
    have a4 : processed_of (input_path base ext) ≠ cropped_path base ext :=
      processed_ne (by
        simp only [input_path, cropped_path, String.length_append,
          len_cropped]
        omega)
    have a5 : processed_of (input_path base ext) ≠ novocals_path base ext :=
      processed_ne (by
        simp only [input_path, novocals_path, String.length_append,
          len_novocals]
        omega)
    have b1 : processed_of (output_path base ext) ≠ input_path base ext :=
      processed_ne (by
        simp only [input_path, output_path, String.length_append, len_final]
        omega)
    have b2 : processed_of (output_path base ext) ≠ sidecar_path base ext :=
      processed_ne (by
        simp only [output_path, sidecar_path, String.length_append,
          len_final, len_statusjson]
        omega)
    have b3 : processed_of (output_path base ext) ≠ cropped_path base ext :=
      processed_ne (by
        simp only [output_path, cropped_path, String.length_append,
          len_final, len_cropped]
        omega)
    have b4 : processed_of (output_path base ext) ≠ novocals_path base ext :=
      processed_ne (by
        simp only [output_path, novocals_path, String.length_append,
          len_final, len_novocals]
        omega)
    have c1 : processed_of (sidecar_path base ext) ≠ cropped_path base ext :=
      processed_ne (by
        simp only [sidecar_path, cropped_path, String.length_append,
          len_statusjson, len_cropped]
        omega)
    have c2 : processed_of (sidecar_path base ext) ≠ novocals_path base ext :=
      processed_ne (by
        simp only [sidecar_path, novocals_path, String.length_append,
          len_statusjson, len_novocals]
        omega)
    have c3 : processed_of (sidecar_path base ext) ≠ input_path base ext :=
      processed_ne (by
        simp only [input_path, sidecar_path, String.length_append,
          len_statusjson]
        omega)
    have c4 : processed_of (sidecar_path base ext) ≠ sidecar_path base ext :=
      processed_ne (by
        simp only [sidecar_path, String.length_append, len_statusjson]
        omega)
    have d1 : input_path base ext ≠ output_path base ext :=
      input_ne_mid base ext (by decide)
    have d2 : sidecar_path base ext ≠ input_path base ext :=
      ne_of_len (by
        simp only [input_path, sidecar_path, String.length_append,
          len_statusjson]
        omega)
    have d3 := sidecar_ne_output base ext
    have e1 : input_path base ext ≠ cropped_path base ext :=
      input_ne_mid base ext (by decide)
    have e2 : input_path base ext ≠ novocals_path base ext :=
      input_ne_mid base ext (by decide)
    have e3 := sidecar_ne_cropped base ext
    have e4 := sidecar_ne_novocals base ext
    have hm1 : move_if_present (st1.fs, []) (input_path base ext) =
        ((st1.fs.del (input_path base ext)).add
          (processed_of (input_path base ext)),
         [(input_path base ext, processed_of (input_path base ext))]) := by
      simp [move_if_present, hinp]
    have hc2b : ((st1.fs.del (input_path base ext)).add
        (processed_of (input_path base ext))).hasPath
          (output_path base ext) = true := by
      simp [hout, Ne.symm d1, a2]
    have hm2 : move_if_present ((st1.fs.del (input_path base ext)).add
        (processed_of (input_path base ext)),
        [(input_path base ext, processed_of (input_path base ext))])
        (output_path base ext) =
        ((((st1.fs.del (input_path base ext)).add
            (processed_of (input_path base ext))).del
            (output_path base ext)).add
            (processed_of (output_path base ext)),
         [(input_path base ext, processed_of (input_path base ext)),
          (output_path base ext, processed_of (output_path base ext))]) := by
      simp [move_if_present, hc2b]
    have hc3b : ((((st1.fs.del (input_path base ext)).add
        (processed_of (input_path base ext))).del
        (output_path base ext)).add
        (processed_of (output_path base ext))).hasPath
          (sidecar_path base ext) = true := by
      simp [hscp, d2, d3, a3, b2]
    have hm3 : move_if_present ((((st1.fs.del (input_path base ext)).add
        (processed_of (input_path base ext))).del
        (output_path base ext)).add
        (processed_of (output_path base ext)),
        [(input_path base ext, processed_of (input_path base ext)),
         (output_path base ext, processed_of (output_path base ext))])
        (sidecar_path base ext) =
        ((((((st1.fs.del (input_path base ext)).add
            (processed_of (input_path base ext))).del
            (output_path base ext)).add
            (processed_of (output_path base ext))).del
            (sidecar_path base ext)).add
            (processed_of (sidecar_path base ext)),
         [(input_path base ext, processed_of (input_path base ext)),
          (output_path base ext, processed_of (output_path base ext)),
          (sidecar_path base ext, processed_of (sidecar_path base ext))]) := by
      simp [move_if_present, hc3b]
    rw [hchar]
    refine ⟨rfl, ?_, ?_, ?_, ?_, ?_, ?_, ?_, ?_, rfl⟩
    · simp only [hm1, hm2, hm3]
    · simp only [hm1, hm2, hm3]
      simp [a1, a2, a3, a4, a5, Ne.symm a1]
    · simp only [hm1, hm2, hm3]
      simp [b1, b2, b3, b4]
    · simp only [hm1, hm2, hm3]
      simp [c1, c2, c4]
    · simp only [hm1, hm2, hm3]
      simp [hinp, a1, Ne.symm a1, b1, Ne.symm b1, c3, Ne.symm c3, d1,
        Ne.symm d1, d2, Ne.symm d2, e1, e2]
    · simp only [hm1, hm2, hm3]
      simp [d2, Ne.symm d2, d3, Ne.symm d3, a3, Ne.symm a3, b2, Ne.symm b2,
        c4, Ne.symm c4, e3, e4]
    · simp only [hm1, hm2, hm3]
      simp
    · simp only [hm1, hm2, hm3]
      simp
  · intro cR sR nR upl sp ng fn2 c hc
    unfold process_video at hc ⊢
    rcases hrp : run_pipeline base ext ⟨fs0.add (sidecar_path base ext),
      init_sidecar base ext sc0⟩ cR sR nR with ⟨st, ex, err⟩
    simp only [hrp] at hc ⊢
    cases err with
    | some e => cases e <;> exact ⟨rfl, rfl⟩
    | none =>
      by_cases hu : upl = true
      · simp only [hu] at hc ⊢
        by_cases ha : ((upload_one_video (some st.sidecar) sp ng
            fn2).results.any (fun e => !e.2.1)) = true
        · rw [if_neg (by simp), if_pos ha] at hc ⊢
          exact ⟨rfl, rfl⟩
        · rw [if_neg (by simp), if_neg ha] at hc
          simp at hc
      · have hu2 : upl = false := by simpa using hu
        simp only [hu2] at hc
        rw [if_pos (by simp)] at hc
        simp at hc

/-- Witness for C9 on a concrete fresh item with all steps and uploads
succeeding, including the failure conjunct. -/
theorem C9_archival_on_full_success_witness :
    (((process_video "clip" ".mp4" ["clip.mp4"] none .ok .ok .ok true []
        true (fun _ => .ok)).sidecar.status = some "done" ∧
      (process_video "clip" ".mp4" ["clip.mp4"] none .ok .ok .ok true []
        true (fun _ => .ok)).moved =
        [(input_path "clip" ".mp4", processed_of (input_path "clip" ".mp4")),
         (output_path "clip" ".mp4",
           processed_of (output_path "clip" ".mp4")),
         (sidecar_path "clip" ".mp4",
           processed_of (sidecar_path "clip" ".mp4"))] ∧
      (process_video "clip" ".mp4" ["clip.mp4"] none .ok .ok .ok true []
        true (fun _ => .ok)).fs.hasPath
          (processed_of (input_path "clip" ".mp4")) = true ∧
      (process_video "clip" ".mp4" ["clip.mp4"] none .ok .ok .ok true []
        true (fun _ => .ok)).fs.hasPath
          (processed_of (output_path "clip" ".mp4")) = true ∧
      (process_video "clip" ".mp4" ["clip.mp4"] none .ok .ok .ok true []
        true (fun _ => .ok)).fs.hasPath
          (processed_of (sidecar_path "clip" ".mp4")) = true ∧
      (process_video "clip" ".mp4" ["clip.mp4"] none .ok .ok .ok true []
        true (fun _ => .ok)).fs.hasPath (input_path "clip" ".mp4") = false ∧
      (process_video "clip" ".mp4" ["clip.mp4"] none .ok .ok .ok true []
        true (fun _ => .ok)).fs.hasPath (sidecar_path "clip" ".mp4") =
          false ∧
      (process_video "clip" ".mp4" ["clip.mp4"] none .ok .ok .ok true []
        true (fun _ => .ok)).fs.hasPath (cropped_path "clip" ".mp4") =
          false ∧
      (process_video "clip" ".mp4" ["clip.mp4"] none .ok .ok .ok true []
        true (fun _ => .ok)).fs.hasPath (novocals_path "clip" ".mp4") =
          false ∧
      (process_video "clip" ".mp4" ["clip.mp4"] none .ok .ok .ok true []
        true (fun _ => .ok)).outcome =
          .returned (output_path "clip" ".mp4")) ∧
     (∀ (cR sR nR : StepFnResult) (upl : Bool) (sp : List String) (ng : Bool)
         (fn2 : String → UploadFnResult) (c : Nat),
       (process_video "clip" ".mp4" ["clip.mp4"] none cR sR nR upl sp ng
         fn2).outcome = .exited c →
       (process_video "clip" ".mp4" ["clip.mp4"] none cR sR nR upl sp ng
         fn2).moved = [] ∧
       (process_video "clip" ".mp4" ["clip.mp4"] none cR sR nR upl sp ng
         fn2).deletedIntermediates = [])) :=
  C9_archival_on_full_success "clip" ".mp4" ["clip.mp4"] none []
    (fun _ => .ok) (by decide) (by decide) (fun _ => rfl)

/-! Model of `wait_for_container` (instagram_upload.py lines 118 to 161):
the rate-limit retry loop of the Instagram publish poll. -/

def POLL_INTERVAL : Nat := 30

def POLL_TIMEOUT : Nat := 600

def MAX_RATE_LIMIT_RETRIES : Nat := 5

/-- One observed network poll result: an HTTPError with its code and
body, or a JSON response carrying `status_code`. -/
inductive PollResp where
  | httpError (code : Nat) (body : String)
  | ok (statusCode : String)
deriving Repr, DecidableEq

def lowerChars (l : List Char) : List Char := l.map Char.toLower

/-- Whether `"rate"` occurs as a contiguous substring, charwise. -/
def rate_in : List Char → Bool
  | [] => false
  | c :: rest => ((c :: rest).take 4 == "rate".data) || rate_in rest

/-- Python `"rate" in body.lower()`. -/
def bodyHasRate (body : String) : Bool := rate_in (lowerChars body.data)

/-- How one call of the poll loop ends. `outOfResponses` is a model
artifact: the observed response list ran out while the loop would poll
again. -/
inductive WaitResult where
  | finished
  | timedOut
  | rateLimitGiveUp
  | pollError (code : Nat) (body : String)
  | containerError
  | outOfResponses
deriving Repr, DecidableEq

/-- The poll loop. Wall-clock time is modelled as the accumulated sleep
time in seconds, a lower bound on the real `time.time() - start`, advanced
by each backoff and by the poll interval between status checks; the loop
observes the successive network results from `resps` (ending with the
distinguished `outOfResponses` if they run out). `delays` accumulates the
backoff sleeps performed, in order. -/
def wait_for_container (resps : List PollResp) (clock retries : Nat)
    (delays : List Nat) : WaitResult × List Nat :=
  if clock > POLL_TIMEOUT then (.timedOut, delays)
  else
    match resps with
    | [] => (.outOfResponses, delays)
    | r :: rest =>
      match r with
      | .httpError code body =>
        if (code == 403 || code == 429) && bodyHasRate body then
          if retries + 1 > MAX_RATE_LIMIT_RETRIES then
            (.rateLimitGiveUp, delays)
          else
            wait_for_container rest (clock + 60 * (retries + 1))
              (retries + 1) (delays ++ [60 * (retries + 1)])
        else (.pollError code body, delays)
      | .ok status =>
        if status == "FINISHED" then (.finished, delays)
        else if status == "ERROR" then (.containerError, delays)
        else wait_for_container rest (clock + POLL_INTERVAL) 0 delays

/-- Witness for C3: each conjunct instantiated on a concrete run in which
exactly that step runs and raises. -/
theorem C3_step_failure_witness :
    step_failure_contract (process_video "clip" ".mp4" ["clip.mp4"] none
        (.exc "boom" true) .ok .ok true [] true (fun _ => .ok))
      "crop" ["scrub_voices", "normalize"] (cropping_tmp "clip" ".mp4")
      (cropped_path "clip" ".mp4") (.exc "boom" true) ∧
    step_failure_contract (process_video "clip" ".mp4" ["clip.mp4"] none
        .ok (.sysExit 1 false) .ok true [] true (fun _ => .ok))
      "scrub_voices" ["normalize"] (scrubbing_tmp "clip" ".mp4")
      (novocals_path "clip" ".mp4") (.sysExit 1 false) ∧
    step_failure_contract (process_video "clip" ".mp4" ["clip.mp4"] none
        .ok .ok (.exc "loud" true) true [] true (fun _ => .ok))
      "normalize" [] (normalizing_tmp "clip" ".mp4")
      (output_path "clip" ".mp4") (.exc "loud" true) :=
  ⟨(C3_step_failure "clip" ".mp4" ["clip.mp4"] none (.exc "boom" true) .ok .ok
      true [] true (fun _ => .ok)).1 (by decide) (by decide) (by decide)
      (by decide),
   (C3_step_failure "clip" ".mp4" ["clip.mp4"] none .ok (.sysExit 1 false) .ok
      true [] true (fun _ => .ok)).2.1 (by decide) (by decide) (Or.inr rfl)
      (by decide),
   (C3_step_failure "clip" ".mp4" ["clip.mp4"] none .ok .ok (.exc "loud" true)
      true [] true (fun _ => .ok)).2.2 (by decide)
      (Or.inr ⟨rfl, Or.inr rfl⟩) (by decide)⟩


/-- Loop invariant of `wait_for_container` (instagram_upload.py lines 118
to 161): whenever the accumulated clock is at least
`30 * retries * (retries + 1)` — which holds at entry (`retries = 0`) and
is maintained because `retries` consecutive rate-limited polls force
backoff sleeps summing to `60 * (1 + 2 + ... + retries)` — the loop never
reaches the retry-cap give-up branch: five consecutive backoffs already
total 900 s, past the 600 s `POLL_TIMEOUT` checked at the top of each
iteration. Moreover every backoff delay it records is linear:
`60 * k` for some `1 ≤ k ≤ MAX_RATE_LIMIT_RETRIES`. -/
theorem wait_for_container_inv (resps : List PollResp) :
    ∀ clock retries delays, 30 * retries * (retries + 1) ≤ clock →
      (wait_for_container resps clock retries delays).1 ≠
          WaitResult.rateLimitGiveUp ∧
      ∀ d ∈ (wait_for_container resps clock retries delays).2,
        d ∈ delays ∨ ∃ k, 1 ≤ k ∧ k ≤ MAX_RATE_LIMIT_RETRIES ∧ d = 60 * k := by
  induction resps with
  | nil =>
      intro clock retries delays _
      unfold wait_for_container
      by_cases hc : clock > POLL_TIMEOUT
      · rw [if_pos hc]
        exact ⟨by simp, fun d hd => Or.inl hd⟩
      · rw [if_neg hc]
        exact ⟨by simp, fun d hd => Or.inl hd⟩
  | cons r rest ih =>
      intro clock retries delays h
      unfold wait_for_container
      by_cases hc : clock > POLL_TIMEOUT
      · rw [if_pos hc]
        exact ⟨by simp, fun d hd => Or.inl hd⟩
      · rw [if_neg hc]
        cases r with
        | httpError code body =>
            dsimp only
            by_cases hrl : ((code == 403 || code == 429) && bodyHasRate body)
                = true
            · rw [if_pos hrl]
              by_cases hcap : retries + 1 > MAX_RATE_LIMIT_RETRIES
              · exfalso
                have h5 : 5 ≤ retries := by
                  have h5' : (5 : Nat) < retries + 1 := hcap
                  omega
                have h900 : (900 : Nat) ≤ clock := by
                  have hm : 30 * 5 * (5 + 1) ≤ 30 * retries * (retries + 1) :=
                    Nat.mul_le_mul (Nat.mul_le_mul_left 30 h5) (by omega)
                  exact le_trans (by norm_num) (le_trans hm h)
                have h600 : clock ≤ 600 := by
                  have hc' : ¬ (600 < clock) := hc
                  omega
                omega
              · rw [if_neg hcap]
                have h' : 30 * (retries + 1) * (retries + 1 + 1) ≤
                    clock + 60 * (retries + 1) := by
                  have key : 30 * (retries + 1) * (retries + 1 + 1) =
                      30 * retries * (retries + 1) + 60 * (retries + 1) := by
                    ring
                  rw [key]
                  exact Nat.add_le_add_right h _
                obtain ⟨ih1, ih2⟩ := ih (clock + 60 * (retries + 1))
                  (retries + 1) (delays ++ [60 * (retries + 1)]) h'
                refine ⟨ih1, ?_⟩
                intro d hd
                rcases ih2 d hd with hmem | hk
                · rcases List.mem_append.mp hmem with h1 | h2
                  · exact Or.inl h1
                  · have hd2 : d = 60 * (retries + 1) := by simpa using h2
                    have hle : retries + 1 ≤ 5 := by
                      have hcap' : ¬ ((5 : Nat) < retries + 1) := hcap
                      omega
                    exact Or.inr ⟨retries + 1, by omega, hle, hd2⟩
                · exact Or.inr hk
            · rw [if_neg hrl]
              exact ⟨by simp, fun d hd => Or.inl hd⟩
        | ok status =>
            dsimp only
            by_cases hf : (status == "FINISHED") = true
            · rw [if_pos hf]
              exact ⟨by simp, fun d hd => Or.inl hd⟩
            · rw [if_neg hf]
              by_cases he : (status == "ERROR") = true
              · rw [if_pos he]
                exact ⟨by simp, fun d hd => Or.inl hd⟩
              · rw [if_neg he]
                exact ih (clock + POLL_INTERVAL) 0 delays (by norm_num)

/-- C6 counterexample: the claim's cap-exceeded clause does not match the
code. Under the clock model (accumulated sleep, a lower bound on real
elapsed time), six consecutive rate-limited polls end in the 600 s poll
timeout after five linear backoffs (60..300 s sum to 900 s), so the
give-up branch that would exceed `MAX_RATE_LIMIT_RETRIES` is never
reached; and when the gated upload does fail (the worker catches the
`SystemExit` that `sys.exit(1)` raises), the sidecar record carries only
the generic text "upload exited with error", which contains no rate-limit
reason. -/
theorem C6_counterexample :
    wait_for_container
        (List.replicate 6 (PollResp.httpError 429 "Rate limit hit")) 0 0 []
      = (WaitResult.timedOut, [60, 120, 180, 240, 300]) ∧
    usc_get (upload_one_video (some {}) [] true
        (fun _ => UploadFnResult.sysExit)) (platform_key "Instagram Reels")
      = some { status := "failed", error := some "upload exited with error",
               durationRecorded := true } ∧
    bodyHasRate "upload exited with error" = false :=
  ⟨by decide, by decide, by decide⟩

/-- C6 (amended): a rate-limited poll (HTTP 403/429 whose body mentions
"rate") is retried with linear backoff `60 * k` seconds on the k-th
consecutive retry; a worker that receives 2 rate-limit errors then
succeeds records exactly the 2 retry delays 60 s and 120 s before
finishing; every recorded delay is `60 * k` with
`1 ≤ k ≤ MAX_RATE_LIMIT_RETRIES`; but the retry cap itself is
unreachable — the 600 s poll timeout always fires first — and a failed
upload's sidecar record carries the generic error
"upload exited with error", not a rate-limit reason. -/
theorem C6_rate_limit_backoff (resps : List PollResp) :
    wait_for_container
        [PollResp.httpError 429 "Rate limit reached",
         PollResp.httpError 403 "Application request limit reached, rate",
         PollResp.ok "FINISHED"] 0 0 []
      = (WaitResult.finished, [60, 120]) ∧
    (wait_for_container resps 0 0 []).1 ≠ WaitResult.rateLimitGiveUp ∧
    (∀ d ∈ (wait_for_container resps 0 0 []).2,
        ∃ k, 1 ≤ k ∧ k ≤ MAX_RATE_LIMIT_RETRIES ∧ d = 60 * k) ∧
    usc_get (upload_one_video (some {}) [] true
        (fun _ => UploadFnResult.sysExit)) (platform_key "Instagram Reels")
      = some { status := "failed", error := some "upload exited with error",
               durationRecorded := true } := by
  obtain ⟨h1, h2⟩ := wait_for_container_inv resps 0 0 [] (by norm_num)
  refine ⟨by decide, h1, ?_, by decide⟩
  intro d hd
  rcases h2 d hd with hmem | hk
  · cases hmem
  · exact hk

/-- Witness for C6: the no-give-up conjunct of the amended theorem at the
concrete two-rate-limits-then-success response list. -/
theorem C6_rate_limit_backoff_witness :
    (wait_for_container
        [PollResp.httpError 429 "Rate limit reached",
         PollResp.httpError 403 "Application request limit reached, rate",
         PollResp.ok "FINISHED"] 0 0 []).1 ≠ WaitResult.rateLimitGiveUp :=
  (C6_rate_limit_backoff
      [PollResp.httpError 429 "Rate limit reached",
       PollResp.httpError 403 "Application request limit reached, rate",
       PollResp.ok "FINISHED"]).2.1



/-! Model of batch discovery (process_all_videos.py lines 18 to 24 and 44
to 63). A directory entry is its `os.path.splitext` halves plus the
`os.path.isfile` bit; `os.path.join(folder, entry)` is modelled as
`folderPath ++ "/" ++ name`. -/

def KNOWN_SUFFIXES : List String :=
  ["_final", "_cropped", "_cropped_9_16", "_novocals"]

def IN_PROGRESS_SUFFIXES : List String :=
  ["_cropping", "_scrubbing", "_normalizing"]

def VIDEO_EXTENSIONS : List String := [".mp4", ".mov", ".avi", ".mkv", ".webm"]

/-- One entry of `os.listdir(folder)`: the `os.path.splitext` stem and
extension of its name, and whether it is a regular file. -/
structure DirEntry where
  stem : String
  ext : String
  isFile : Bool
deriving Repr, DecidableEq

def entryName (e : DirEntry) : String := e.stem ++ e.ext

/-- Python `s.endswith(suf)`, charwise. -/
def ends_with (s suf : String) : Bool := suf.data.isSuffixOf s.data

/-- Python `s.lower()`, charwise. -/
def lowerStr (s : String) : String := String.mk (s.data.map Char.toLower)

/-- `is_already_processed` (process_all_videos.py lines 37 to 41): the
stem ends with a known output or in-progress suffix. -/
def is_already_processed (stem : String) : Bool :=
  (KNOWN_SUFFIXES ++ IN_PROGRESS_SUFFIXES).any (fun suf => ends_with stem suf)

/-- `os.path.exists(os.path.join(folder, s))`: some listed entry has that
name. -/
def exists_in (folder : List DirEntry) (s : String) : Bool :=
  folder.any (fun e => entryName e == s)

/-- `find_unprocessed_videos` (process_all_videos.py lines 44 to 63):
keep regular files with a recognised video extension (lowercased), drop
names already carrying an output or in-progress suffix, drop candidates
for which any `{name}{suffix}{ext}` checkpoint exists in the folder
(the `print` + `continue` branch of lines 58 to 60), and return the full
paths sorted (Python `list.sort`, modelled as insertion sort under the
lexicographic order on strings). -/
def find_unprocessed_videos (folderPath : String) (folder : List DirEntry) :
    List String :=
  List.insertionSort (fun a b => a ≤ b)
    ((folder.filter (fun e =>
        e.isFile &&
        VIDEO_EXTENSIONS.contains (lowerStr e.ext) &&
        !(is_already_processed e.stem) &&
        !(KNOWN_SUFFIXES.any
            (fun suf => exists_in folder (e.stem ++ suf ++ e.ext))))).map
      (fun e => folderPath ++ "/" ++ entryName e))

/-- C7 counterexample: a candidate that already has a downstream
checkpoint artifact is not enqueued. In a folder holding `a.mp4` and its
checkpoint `a_cropped.mp4`, discovery returns the empty list: the
checkpoint is excluded by its `_cropped` suffix, and `a.mp4` itself is
skipped by the `existing` branch (process_all_videos.py lines 56 to 60)
rather than enqueued for the pipeline's own resume logic. -/
theorem C7_counterexample :
    find_unprocessed_videos "/videos"
      [{ stem := "a", ext := ".mp4", isFile := true },
       { stem := "a_cropped", ext := ".mp4", isFile := true }] = [] ∧
    find_unprocessed_videos "/videos"
      [{ stem := "a", ext := ".mp4", isFile := true }] = ["/videos/a.mp4"] :=
  ⟨by decide, by decide⟩

/-- C7 (amended): discovery excludes files whose stem ends with a known
derived-output or in-progress suffix and files without a recognised video
extension; a remaining candidate for which any downstream checkpoint
artifact exists in the folder is skipped (logged, not enqueued); the
returned work list holds exactly the full paths of the surviving
candidates and is sorted lexicographically. -/
theorem C7_batch_discovery (folderPath : String) (folder : List DirEntry)
    (s : String) :
    (s ∈ find_unprocessed_videos folderPath folder ↔
      ∃ e, e ∈ folder ∧ e.isFile = true ∧
        VIDEO_EXTENSIONS.contains (lowerStr e.ext) = true ∧
        is_already_processed e.stem = false ∧
        (∀ suf ∈ KNOWN_SUFFIXES,
          exists_in folder (e.stem ++ suf ++ e.ext) = false) ∧
        s = folderPath ++ "/" ++ entryName e) ∧
    List.Sorted (fun a b => a ≤ b)
      (find_unprocessed_videos folderPath folder) := by
  refine ⟨?_, List.sorted_insertionSort _ _⟩
  rw [find_unprocessed_videos,
    (List.perm_insertionSort (fun a b : String => a ≤ b) _).mem_iff,
    List.mem_map]
  constructor
  · rintro ⟨e, he, rfl⟩
    rw [List.mem_filter] at he
    obtain ⟨hmem, hp⟩ := he
    simp only [Bool.and_eq_true, Bool.not_eq_true'] at hp
    refine ⟨e, hmem, hp.1.1.1, hp.1.1.2, hp.1.2, ?_, rfl⟩
    intro suf hsuf
    have := hp.2
    rw [List.any_eq_false] at this
    exact Bool.not_eq_true _ ▸ (this suf hsuf)
  · rintro ⟨e, hmem, h1, h2, h3, h4, rfl⟩
    refine ⟨e, ?_, rfl⟩
    rw [List.mem_filter]
    refine ⟨hmem, ?_⟩
    simp only [Bool.and_eq_true, Bool.not_eq_true']
    refine ⟨⟨⟨h1, h2⟩, h3⟩, ?_⟩
    rw [List.any_eq_false]
    intro suf hsuf
    exact (Bool.not_eq_true _).symm ▸ (h4 suf hsuf)

/-- Witness for C7: the membership characterisation applied to a concrete
folder with a single fresh candidate. -/
theorem C7_batch_discovery_witness :
    "/videos/b.mp4" ∈ find_unprocessed_videos "/videos"
      [{ stem := "b", ext := ".mp4", isFile := true }] :=
  (C7_batch_discovery "/videos"
      [{ stem := "b", ext := ".mp4", isFile := true }] "/videos/b.mp4").1.mpr
    ⟨{ stem := "b", ext := ".mp4", isFile := true }, by decide, by decide,
      by decide, by decide, by decide, by decide⟩



/-! Model of the batch scheduler (process_all_videos.py, `main`, lines
303 to 371): argument parsing, the fixed worker budget, and the
sliding-window thread pool as a transition system. -/

/-- The command line of process_all_videos.py (lines 304 to 319), on
`sys.argv[1:]`: strip `--no-upload` flags, require exactly one remaining
argument (the folder), refuse `--help` in first position; no concurrency
argument exists. Returns `(folder, no_upload)` or `none` when the process
prints usage and exits. -/
def parse_args (argv : List String) : Option (String × Bool) :=
  match argv.filter (fun a => !(a == "--no-upload")) with
  | [folder] =>
      if argv.head? == some "--help" then none
      else some (folder, argv.contains "--no-upload")
  | _ => none

/-- `max_workers = min(4, len(videos))` (process_all_videos.py line 331):
the worker budget is fixed, not configurable. -/
def maxWorkers (n : Nat) : Nat := min 4 n

/-- Scheduler state: `pending` and `active` are the like-named lists of
`main`, `alive` is the set of threads whose worker function is still
running (`t.is_alive()`), `started` records every `t.start()` in order.
Threads are identified by their video index. -/
structure SchedState where
  pending : List Nat
  active : List Nat
  alive : List Nat
  started : List Nat
deriving Repr, DecidableEq

/-- `start_next` (process_all_videos.py lines 354 to 358): pop the head
of `pending`, start it. -/
def start_next (s : SchedState) : SchedState :=
  match s.pending with
  | [] => s
  | v :: rest =>
      { pending := rest, active := s.active ++ [v],
        alive := s.alive ++ [v], started := s.started ++ [v] }

/-- `active = [t for t in active if t.is_alive()]` (lines 364 and 367). -/
def prune (s : SchedState) : SchedState :=
  { s with active := s.active.filter (fun t => s.alive.contains t) }

/-- The initial burst `for _ in range(max_workers): start_next()`
(lines 360 to 361), modelled atomically; a thread finishing mid-burst
only shrinks `alive`, so it commutes with the remaining starts for the
properties proved here. -/
def burst : Nat → SchedState → SchedState
  | 0, s => s
  | k + 1, s => burst k (start_next s)

def initState (videos : List Nat) : SchedState :=
  { pending := videos, active := [], alive := [], started := [] }

/-- One observable scheduler event: a worker thread finishes; the monitor
loop prunes `active`; or — only when `len(active) < max_workers` and
items are pending (line 366) — the loop starts the next pending item and
prunes (lines 366 to 368). -/
inductive SchedStep (W : Nat) : SchedState → SchedState → Prop where
  | finish (t : Nat) (s : SchedState) : t ∈ s.alive →
      SchedStep W s { s with alive := s.alive.erase t }
  | pruneStep (s : SchedState) : SchedStep W s (prune s)
  | fill (s : SchedState) : s.active.length < W → s.pending ≠ [] →
      SchedStep W s (prune (start_next s))

/-- States the monitor loop can reach after the initial burst. -/
def SchedReachable (W : Nat) (videos : List Nat) (s : SchedState) : Prop :=
  Relation.ReflTransGen (SchedStep W) (burst W (initState videos)) s

/-- The scheduler invariant: starts happen in discovery order
(`started ++ pending = videos`), running threads are a sublist of the
`active` list, and `active` never exceeds the budget. -/
def SchedInv (W : Nat) (videos : List Nat) (s : SchedState) : Prop :=
  s.started ++ s.pending = videos ∧ s.alive.Sublist s.active ∧
  s.active.length ≤ W

theorem start_next_pres (videos : List Nat) (s : SchedState)
    (h1 : s.started ++ s.pending = videos)
    (h2 : s.alive.Sublist s.active) :
    (start_next s).started ++ (start_next s).pending = videos ∧
    (start_next s).alive.Sublist (start_next s).active ∧
    (start_next s).active.length ≤ s.active.length + 1 := by
  cases hp : s.pending with
  | nil => simp [start_next, hp]; exact ⟨by rw [← h1, hp]; simp, h2⟩
  | cons v rest =>
      refine ⟨?_, ?_, ?_⟩
      · simp only [start_next, hp]
        rw [← h1, hp]
        simp
      · simp only [start_next, hp]
        exact List.Sublist.append h2 (List.Sublist.refl [v])
      · simp [start_next, hp]

theorem prune_pres (W : Nat) (videos : List Nat) (s : SchedState)
    (hinv : SchedInv W videos s) : SchedInv W videos (prune s) := by
  obtain ⟨h1, h2, h3⟩ := hinv
  refine ⟨h1, ?_, le_trans (List.length_filter_le _ _) h3⟩
  have hf := List.Sublist.filter (fun t => s.alive.contains t) h2
  rwa [List.filter_eq_self.mpr] at hf
  intro a ha
  simpa [List.contains] using List.elem_eq_true_of_mem ha

theorem sched_step_inv (W : Nat) (videos : List Nat) (s s' : SchedState)
    (hstep : SchedStep W s s') (hinv : SchedInv W videos s) :
    SchedInv W videos s' := by
  obtain ⟨h1, h2, h3⟩ := hinv
  cases hstep with
  | finish t ht =>
      exact ⟨h1, List.Sublist.trans (List.erase_sublist t s.alive) h2, h3⟩
  | pruneStep => exact prune_pres W videos s ⟨h1, h2, h3⟩
  | fill hlen hpend =>
      apply prune_pres
      obtain ⟨g1, g2, g3⟩ := start_next_pres videos s h1 h2
      exact ⟨g1, g2, by omega⟩

theorem burst_inv (k : Nat) (W : Nat) (videos : List Nat) :
    ∀ s : SchedState, s.started ++ s.pending = videos →
      s.alive.Sublist s.active → s.active.length + k ≤ W →
      SchedInv W videos (burst k s) := by
  induction k with
  | zero =>
      intro s h1 h2 h3
      refine ⟨h1, h2, ?_⟩
      simp only [burst]
      omega
  | succ k ih =>
      intro s h1 h2 h3
      obtain ⟨g1, g2, g3⟩ := start_next_pres videos s h1 h2
      exact ih (start_next s) g1 g2 (by omega)

theorem sched_reach_inv (W : Nat) (videos : List Nat) (s : SchedState)
    (h : SchedReachable W videos s) : SchedInv W videos s := by
  induction h with
  | refl =>
      exact burst_inv W W videos (initState videos) rfl
        (List.Sublist.refl []) (by simp [initState])
  | tail hr hstep ih =>
      exact sched_step_inv W videos _ _ hstep ih

/-- C8 counterexample: the batch CLI accepts no concurrency limit. A
second positional argument (a would-be worker count) makes `main` print
usage and exit, while the accepted forms carry only the folder and the
`--no-upload` flag; the budget is hard-coded to `min(4, len(videos))`. -/
theorem C8_counterexample :
    parse_args ["/videos", "2"] = none ∧
    parse_args ["/videos"] = some ("/videos", false) ∧
    parse_args ["--no-upload", "/videos"] = some ("/videos", true) ∧
    maxWorkers 10 = 4 :=
  ⟨by decide, by decide, by decide, by decide⟩

/-- C8 (amended): the scheduler has a fixed (not user-configurable)
worker budget `W = min(4, number of videos)`; in every reachable state of
the monitor loop at most `W` (hence at most 4) worker threads are alive
at once, and threads are started in FIFO discovery order: the start
order is always a prefix of the sorted video list, with the rest still
pending. -/
theorem C8_bounded_concurrency (videos : List Nat) (s : SchedState)
    (h : SchedReachable (maxWorkers videos.length) videos s) :
    s.alive.length ≤ maxWorkers videos.length ∧
    s.alive.length ≤ 4 ∧
    s.started ++ s.pending = videos := by
  obtain ⟨h1, h2, h3⟩ := sched_reach_inv (maxWorkers videos.length) videos s h
  have hle : s.alive.length ≤ maxWorkers videos.length :=
    le_trans (List.Sublist.length_le h2) h3
  exact ⟨hle, le_trans hle (Nat.min_le_left 4 _), h1⟩

/-- Witness for C8: the invariant at the state reached right after the
initial burst on a three-item batch. -/
theorem C8_bounded_concurrency_witness :
    (burst (maxWorkers 3) (initState [0, 1, 2])).alive.length ≤
        maxWorkers 3 ∧
    (burst (maxWorkers 3) (initState [0, 1, 2])).alive.length ≤ 4 ∧
    (burst (maxWorkers 3) (initState [0, 1, 2])).started ++
        (burst (maxWorkers 3) (initState [0, 1, 2])).pending = [0, 1, 2] :=
  C8_bounded_concurrency [0, 1, 2] _ Relation.ReflTransGen.refl



/-! Model of the platform upload entry points (tiktok_upload.py
`validate_file` lines 50 to 60 and `upload_tiktok` lines 222 to 246;
instagram_upload.py `validate_file` lines 57 to 67 and `upload_reel`
lines 190 to 209) as action traces. A filepath is its splitext halves
plus the `os.path.isfile` bit, reusing `DirEntry`. -/

/-- One observable action of an upload flow: the file validation check,
a `_require_env` read, or a network call (the TikTok token refresh is the
network call named "refresh_token"). -/
inductive UAction where
  | validateCheck
  | envRead (name : String)
  | netCall (which : String)
deriving Repr, DecidableEq

/-- `validate_file` (identical in tiktok_upload.py and
instagram_upload.py): pass only a regular file whose splitext stem ends
with "_final"; otherwise print and `sys.exit(1)`. -/
def validate_file (f : DirEntry) : Bool :=
  f.isFile && ends_with f.stem "_final"

/-- A chain of `_require_env` reads (exit if unset), then continue. -/
def env_seq (env : String → Option String) :
    List String → List UAction × Bool → List UAction × Bool
  | [], k => k
  | n :: rest, k =>
      match env n with
      | none => ([UAction.envRead n], false)
      | some _ =>
          let r := env_seq env rest k
          (UAction.envRead n :: r.1, r.2)

/-- A chain of network calls, each exiting the process on failure. -/
def net_seq (net : String → Bool) : List String → List UAction × Bool
  | [] => ([], true)
  | c :: rest =>
      if net c then
        let r := net_seq net rest
        (UAction.netCall c :: r.1, r.2)
      else ([UAction.netCall c], false)

/-- `upload_tiktok` (tiktok_upload.py lines 222 to 246): validate, read
TT_CLIENT_KEY / TT_CLIENT_SECRET / TT_REFRESH_TOKEN, refresh the access
token, init the upload, send the file, poll status. Returns the action
trace and whether the flow completed. -/
def upload_tiktok (f : DirEntry) (env : String → Option String)
    (net : String → Bool) : List UAction × Bool :=
  if validate_file f then
    let r := env_seq env ["TT_CLIENT_KEY", "TT_CLIENT_SECRET", "TT_REFRESH_TOKEN"]
      (net_seq net ["refresh_token", "init_upload", "upload_file", "poll_status"])
    (UAction.validateCheck :: r.1, r.2)
  else ([UAction.validateCheck], false)

/-- `upload_reel` (instagram_upload.py lines 190 to 209): validate, read
IG_USER_ID / IG_ACCESS_TOKEN / NGROK_URL, preflight the public video
URL, create the media container, poll it, publish. -/
def upload_reel (f : DirEntry) (env : String → Option String)
    (net : String → Bool) : List UAction × Bool :=
  if validate_file f then
    let r := env_seq env ["IG_USER_ID", "IG_ACCESS_TOKEN", "NGROK_URL"]
      (net_seq net ["preflight", "create_container", "poll_container", "publish"])
    (UAction.validateCheck :: r.1, r.2)
  else ([UAction.validateCheck], false)

/-- C10: for every filepath that is not a regular file or whose stem
does not end with "_final", both upload_tiktok and upload_reel stop with
an error right after the validation check: the trace is exactly the
validation check, so no environment read, no token refresh, and no
network call of any kind happens; only existing "_final" files proceed. -/
theorem C10_upload_precondition (f : DirEntry)
    (env : String → Option String) (net : String → Bool)
    (h : f.isFile = false ∨ ends_with f.stem "_final" = false) :
    upload_tiktok f env net = ([UAction.validateCheck], false) ∧
    upload_reel f env net = ([UAction.validateCheck], false) ∧
    ∀ a, (a ∈ (upload_tiktok f env net).1 ∨ a ∈ (upload_reel f env net).1) →
      (∀ w, a ≠ UAction.netCall w) ∧ (∀ n, a ≠ UAction.envRead n) := by
  have hval : validate_file f = false := by
    rcases h with h | h <;> simp [validate_file, h]
  refine ⟨by simp [upload_tiktok, hval], by simp [upload_reel, hval], ?_⟩
  intro a ha
  have ha' : a = UAction.validateCheck := by
    rcases ha with ha | ha <;>
      simpa [upload_tiktok, upload_reel, hval] using ha
  subst ha'
  exact ⟨fun w hw => UAction.noConfusion hw, fun n hn => UAction.noConfusion hn⟩

/-- Witness for C10: a regular file without the "_final" suffix is
rejected by both flows before any environment read or network call. -/
theorem C10_upload_precondition_witness :
    upload_tiktok { stem := "clip", ext := ".mp4", isFile := true }
        (fun _ => some "t") (fun _ => true)
      = ([UAction.validateCheck], false) ∧
    upload_reel { stem := "clip", ext := ".mp4", isFile := true }
        (fun _ => some "t") (fun _ => true)
      = ([UAction.validateCheck], false) :=
  ⟨(C10_upload_precondition { stem := "clip", ext := ".mp4", isFile := true }
      (fun _ => some "t") (fun _ => true) (Or.inr (by decide))).1,
   (C10_upload_precondition { stem := "clip", ext := ".mp4", isFile := true }
      (fun _ => some "t") (fun _ => true) (Or.inr (by decide))).2.1⟩


end HP
